import Mathlib

/-!
Verification of the Application Processing Pipeline
(backend/lambda/student_application.py and backend/lambda/report_generation.py).

The Python code manipulates loosely-typed dict records.  The embedding below
types the record shape that the pipeline actually reads and writes:

* top-level string-valued fields (document content fields and the
  `application_status` field) are a total map `String → Option String`
  (`none` = key absent), matching Python dict equality (`==` ignores
  insertion order, so maps-as-functions are the faithful notion of record
  identity);
* the flat `documents` mapping is an association list (so that the
  `if not docs` emptiness test of the source is expressible);
* nested section sub-objects (`personal_information`, the entries of
  `research_experience.projects` and of `work_experience`) are maps with
  `Option String` keys, because the consolidator writes
  `student[...][content_key] = content` where `content_key` comes from an
  unguarded `.get("content_key")` and may be Python `None`;
* `research_experience` keeps an opaque `rest` component for the keys the
  pipeline never touches.

Python control effects are made explicit: a caught-and-converted exception
becomes a value, an exception that escapes a flow's `try` (so the flow
returns `(False, error)` and persists nothing) makes the embedded function
return `none`.
-/

namespace DRAE

/-- Map representing the top-level string-valued fields of a record. -/
abbrev SMap := String → Option String

/-- Map representing a nested sub-object; keys are `Option String` because the
consolidator may use Python `None` as a dict key. -/
abbrev PMap := Option String → Option String

/-- The flat `documents` dict, as an association list (document key → S3 URI). -/
abbrev DocsMap := List (String × String)

/-- Functional update of a top-level field map (`student[k] = v`). -/
def updStr (m : SMap) (k v : String) : SMap :=
  fun x => if x = k then some v else m x

/-- Functional update of a nested sub-object (`obj[k] = v`). -/
def updPMap (m : PMap) (k : Option String) (v : String) : PMap :=
  fun x => if x = k then some v else m x

/-- The everywhere-absent nested sub-object (Python `{}`). -/
def emptyPMap : PMap := fun _ => none

/-- Lookup in the `documents` association list (Python `docs[k]` / `k in docs`). -/
def dictGet : DocsMap → String → Option String
  | [], _ => none
  | (k, v) :: r, x => if x = k then some v else dictGet r x

/-- Python truthiness of an optional string value: present and non-empty
(`k in d and d[k]`). -/
def truthy : Option String → Bool
  | none => false
  | some s => !(s = "")

/-- `research_experience` section: an optional `projects` list plus the keys the
pipeline never touches. -/
structure REx where
  projects : Option (List PMap)
  rest : PMap

/-- The application record, restricted to the fields the pipeline reads/writes.
`application_status` lives inside `top` under the key `"application_status"`. -/
structure Student where
  top : SMap
  documents : Option DocsMap
  personal_information : Option PMap
  research_experience : Option REx
  work_experience : Option (List PMap)

/-! ### Python string helpers used by the pipeline -/

/-- Python `needle in hay` substring test. -/
def strContains (hay needle : List Char) : Bool :=
  hay.tails.any (fun t => t.take needle.length = needle)

/-- Python `s.split(".")`. -/
def splitDot : List Char → List (List Char)
  | [] => [[]]
  | c :: cs =>
    match splitDot cs with
    | [] => [[]]
    | h :: t => if c = '.' then [] :: h :: t else (c :: h) :: t

/-- Value of an all-digit, non-empty character list. -/
def digitsVal (l : List Char) : Option Nat :=
  match l with
  | [] => none
  | ds => if ds.all Char.isDigit then
            some (ds.foldl (fun a c => 10 * a + (c.toNat - 48)) 0)
          else none

/-- Python `int(s)`: optional surrounding whitespace, optional sign, then a
non-empty run of decimal digits; anything else raises `ValueError`
(modelled as `none`).  Underscore digit grouping is not modelled. -/
def pyInt (s : List Char) : Option Int :=
  let t := ((s.dropWhile Char.isWhitespace).reverse.dropWhile Char.isWhitespace).reverse
  match t with
  | '+' :: r => (digitsVal r).map Int.ofNat
  | '-' :: r => (digitsVal r).map (fun n => -(n : Int))
  | r => (digitsVal r).map Int.ofNat

/-- Python index normalisation for `l[i]` with `i < len(l)` already checked:
a non-negative index is used as is, a negative one counts from the end, and an
index below `-len(l)` raises `IndexError` (modelled as `none`). -/
def normIdx (len : Nat) (i : Int) : Option Nat :=
  if 0 ≤ i then some i.toNat
  else if 0 ≤ i + len then some (i + len).toNat
  else none

/-- `l[i] = ...` on a Python list via `normIdx` (exception as `none`). -/
def pyListModify (l : List PMap) (i : Int) (f : PMap → PMap) : Option (List PMap) :=
  (normIdx l.length i).map (fun j => List.modify f j l)

/-! ### Extraction-result wrappers fed to the consolidator -/

/-- The `document` dict carried inside an extraction result
(`document.get("document_type")`, `.get("content_key")`,
`.get("parent_path", "")`). -/
structure PyDoc where
  document_type : Option String
  content_key : Option String
  parent_path : String
deriving DecidableEq

/-- One extraction result (`result.get("status")`, `.get("document", {})`,
`.get("content", "")`). -/
structure PyResult where
  status : Option String
  document : PyDoc
  content : String
deriving DecidableEq

/-- The default document produced by `result.get("document", {})`. -/
def emptyDoc : PyDoc := ⟨none, none, ""⟩

/-- The default result produced when a wrapper has no `Payload.result`. -/
def emptyResult : PyResult := ⟨none, emptyDoc, ""⟩

/-- A wrapper from the parallel map state: `none` models a wrapper whose
`Payload` or `Payload.result` is missing/malformed, which
`result_wrapper.get("Payload", {}).get("result", {})` turns into `{}`. -/
abbrev Wrapper := Option PyResult

/-- The status of a wrapper after unwrapping. -/
def wStatus (w : Wrapper) : Option String := (w.getD emptyResult).status

/-- Aggregate counts returned by consolidation. -/
structure Summary where
  successful : Nat
  failed : Nat
  skipped : Nat
  total : Nat
deriving DecidableEq

/-! ### The consolidator (student_application.py, consolidate_extraction_results_flow) -/

/-- Classification of the write a successful outcome requests, read off the
`document` dict exactly as lines 1356-1385 do: the `main`/`nested` type tag,
the substring tests on `parent_path`, the `split(".")`/length guards and the
`int(...)` parse (whose `ValueError` escapes the loop, constructor `perr`). -/
inductive WPlan where
  | noop
  | perr
  | wMain (k : String)
  | wPI (k : Option String)
  | wRE (i : Int) (k : Option String)
  | wWE (i : Int) (k : Option String)
deriving DecidableEq

/-- Compute the write plan of a success outcome from its `document` dict. -/
def wplan (d : PyDoc) : WPlan :=
  if d.document_type = some "main" then
    match d.content_key with
    | some ck => if ck = "" then .noop else .wMain ck
    | none => .noop
  else if d.document_type = some "nested" then
    let pp := d.parent_path.data
    if strContains pp "personal_information".data then .wPI d.content_key
    else if strContains pp "research_experience.projects".data then
      let parts := splitDot pp
      if 3 ≤ parts.length then
        match pyInt (parts.getD 2 []) with
        | some i => .wRE i d.content_key
        | none => .perr
      else .noop
    else if strContains pp "work_experience".data then
      let parts := splitDot pp
      if 2 ≤ parts.length then
        match pyInt (parts.getD 1 []) with
        | some i => .wWE i d.content_key
        | none => .perr
      else .noop
    else .noop
  else .noop

/-- Execute a write plan against the record (lines 1357-1385): `main` writes
the top-level content field; `personal_information` is created on demand; a
list write locates the element by the captured index, is dropped when the
index is at or beyond the current length, and raises (`none`) on an
unparsable index or an `IndexError`. -/
def execPlan (st : Student) (p : WPlan) (content : String) : Option Student :=
  match p with
  | .noop => some st
  | .perr => none
  | .wMain k => some { st with top := updStr st.top k content }
  | .wPI k =>
    some { st with personal_information :=
                     some (updPMap (st.personal_information.getD emptyPMap) k content) }
  | .wRE i k =>
    match st.research_experience with
    | none => some st
    | some re =>
      match re.projects with
      | none => some st
      | some ps =>
        if i < (ps.length : Int) then
          (pyListModify ps i (fun pr => updPMap pr k content)).map
            (fun ps2 => { st with research_experience := some { re with projects := some ps2 } })
        else some st
  | .wWE i k =>
    match st.work_experience with
    | none => some st
    | some ws =>
      if i < (ws.length : Int) then
        (pyListModify ws i (fun pr => updPMap pr k content)).map
          (fun ws2 => { st with work_experience := some ws2 })
      else some st

/-- Per-wrapper state of the consolidation loop (record plus the three
tallies of lines 1343-1345). -/
structure CState where
  student : Student
  successful : Nat
  failed : Nat
  skipped : Nat

/-- One iteration of the loop over `extraction_results` (lines 1348-1390).
An accumulated `none` (a previously escaped exception) stays `none`. -/
def consolidateStep (acc : Option CState) (w : Wrapper) : Option CState :=
  match acc with
  | none => none
  | some cs =>
    let r := w.getD emptyResult
    match r.status with
    | some s =>
      if s = "success" then
        (execPlan cs.student (wplan r.document) r.content).map
          (fun stu => ⟨stu, cs.successful + 1, cs.failed, cs.skipped⟩)
      else if s = "failed" then some ⟨cs.student, cs.successful, cs.failed + 1, cs.skipped⟩
      else some ⟨cs.student, cs.successful, cs.failed, cs.skipped + 1⟩
    | none => some ⟨cs.student, cs.successful, cs.failed, cs.skipped + 1⟩

/-- Core of `consolidate_extraction_results_flow` (lines 1341-1408), given the
record loaded from the store: process every wrapper, set
`application_status` to `"Evaluation in-progress"`, and return the record
passed to `dynamodb_put_item` together with the summary.  `none` models the
`except` path (the flow returns `(False, ...)` and persists nothing). -/
def consolidate_extraction_results_flow (student : Student) (ws : List Wrapper) :
    Option (Student × Summary) :=
  (ws.foldl consolidateStep (some ⟨student, 0, 0, 0⟩)).map
    (fun cs =>
      ({ cs.student with top := updStr cs.student.top "application_status" "Evaluation in-progress" },
       ⟨cs.successful, cs.failed, cs.skipped, ws.length⟩))

/-! ### Normalised write targets

Every write the consolidator can perform is an assignment of a constant
string to one addressable location of the record.  Whether a planned write
fires, and at which normalised location, depends on the record only through
its list shape (presence and length of `research_experience.projects` and of
`work_experience`), which no write changes. -/

/-- The list shape of a record: `reProj = some n` iff `research_experience`
is present with a `projects` list of length `n`; `weLen` likewise for
`work_experience`. -/
structure Shape where
  reProj : Option Nat
  weLen : Option Nat
deriving DecidableEq

/-- Shape of a record. -/
def Student.shape (st : Student) : Shape :=
  ⟨(match st.research_experience with
    | none => none
    | some re => re.projects.map List.length),
   st.work_experience.map List.length⟩

/-- A normalised write target: a location of the record that a firing write
assigns to (list indices already normalised to positions). -/
inductive WT where
  | mainT (k : String)
  | piT (k : Option String)
  | reT (j : Nat) (k : Option String)
  | weT (j : Nat) (k : Option String)
deriving DecidableEq

/-- Unconditional assignment of `c` to target `t` (out-of-range positions
leave the record unchanged; they never arise for targets produced by
`firesP`). -/
def writeT (st : Student) (t : WT) (c : String) : Student :=
  match t with
  | .mainT k => { st with top := updStr st.top k c }
  | .piT k =>
    { st with personal_information :=
                some (updPMap (st.personal_information.getD emptyPMap) k c) }
  | .reT j k =>
    { st with research_experience :=
                st.research_experience.map (fun re =>
                  { re with projects := re.projects.map (fun ps =>
                      List.modify (fun pr => updPMap pr k c) j ps) }) }
  | .weT j k =>
    { st with work_experience :=
                st.work_experience.map (fun ws =>
                  List.modify (fun pr => updPMap pr k c) j ws) }

/-- What a plan does at a given shape: `none` = the exception path,
`some none` = no write, `some (some t)` = assignment to target `t`. -/
def firesP (sh : Shape) : WPlan → Option (Option WT)
  | .noop => some none
  | .perr => none
  | .wMain k => some (some (.mainT k))
  | .wPI k => some (some (.piT k))
  | .wRE i k =>
    match sh.reProj with
    | none => some none
    | some n => if i < (n : Int) then (normIdx n i).map (fun j => some (.reT j k)) else some none
  | .wWE i k =>
    match sh.weLen with
    | none => some none
    | some n => if i < (n : Int) then (normIdx n i).map (fun j => some (.weT j k)) else some none

/-- What a wrapper does at a given shape: the write (with its content) that a
successful outcome performs, `some none` for a no-op, `none` for the
exception path. -/
def fireOfW (sh : Shape) (w : Wrapper) : Option (Option (WT × String)) :=
  let r := w.getD emptyResult
  match r.status with
  | some s =>
    if s = "success" then
      (firesP sh (wplan r.document)).map (fun o => o.map (fun t => (t, r.content)))
    else some none
  | none => some none

/-- The sequence of assignments a wrapper list performs (raising wrappers
contribute nothing; they are excluded separately). -/
def firedWrites (sh : Shape) (ws : List Wrapper) : List (WT × String) :=
  ws.filterMap (fun w => (fireOfW sh w).getD none)

/-- Folding a sequence of assignments over a record. -/
def foldWrites (st : Student) (ops : List (WT × String)) : Student :=
  ops.foldl (fun s e => writeT s e.1 e.2) st

/-- Tallies as pure counts over the wrapper list. -/
def cntS (ws : List Wrapper) : Nat := ws.countP (fun w => wStatus w = some "success")

def cntF (ws : List Wrapper) : Nat := ws.countP (fun w => wStatus w = some "failed")

def cntK (ws : List Wrapper) : Nat :=
  ws.countP (fun w => !(wStatus w = some "success") && !(wStatus w = some "failed"))

/-- The write target (if any) of a wrapper at a given shape. -/
def wtargetOf (sh : Shape) (w : Wrapper) : Option WT :=
  ((fireOfW sh w).getD none).map Prod.fst

/-- First-defined choice of two optional values. -/
def orO (a b : Option String) : Option String :=
  match a with
  | some v => some v
  | none => b

/-- Last assignment to target `t` in an assignment sequence (elements further
right are applied later and win). -/
def lastVal (t : WT) : List (WT × String) → Option String
  | [] => none
  | e :: r =>
    match lastVal t r with
    | some v => some v
    | none => if e.1 = t then some e.2 else none

/-- Whether a target creates `personal_information` on demand. -/
def isPiW : WT → Bool
  | .piT _ => true
  | _ => false

/-- Whether an assignment sequence contains a `personal_information` write. -/
def hasPI (ops : List (WT × String)) : Bool := ops.any (fun e => isPiW e.1)

/-- Denotational form of `foldWrites`: the value at every addressable location
is the last assignment to it, if any, else the initial value. -/
def applyOps (ops : List (WT × String)) (s : Student) : Student :=
  { top := fun k => orO (lastVal (.mainT k) ops) (s.top k),
    documents := s.documents,
    personal_information :=
      if hasPI ops then
        some (fun k => orO (lastVal (.piT k) ops) ((s.personal_information.getD emptyPMap) k))
      else s.personal_information,
    research_experience := s.research_experience.map (fun re =>
      { re with projects := re.projects.map (fun ps =>
          ps.mapIdx (fun j pr => fun k => orO (lastVal (.reT j k) ops) (pr k))) }),
    work_experience := s.work_experience.map (fun ws =>
      ws.mapIdx (fun j pr => fun k => orO (lastVal (.weT j k) ops) (pr k))) }

/-- Per-wrapper tally increments. -/
def deltaS (w : Wrapper) : Nat := if wStatus w = some "success" then 1 else 0

def deltaF (w : Wrapper) : Nat := if wStatus w = some "failed" then 1 else 0

def deltaK (w : Wrapper) : Nat :=
  if wStatus w = some "success" ∨ wStatus w = some "failed" then 0 else 1

/-- The status write performed at the end of consolidation, as an assignment. -/
def statusWrite : WT × String := (.mainT "application_status", "Evaluation in-progress")

/-! ### Concrete records and wrappers for the consolidation claims -/

/-- A record with no fields at all. -/
def stEmpty : Student := ⟨fun _ => none, none, none, none, none⟩

/-- A successful `main` outcome for content field `ck` with extracted text `c`. -/
def mainSuccess (ck c : String) : Wrapper :=
  some ⟨some "success", ⟨some "main", some ck, ""⟩, c⟩

/-- The final record of the one-write consolidation run used as witness input. -/
def stOneWrite : Student :=
  ⟨updStr (updStr (fun _ => none) "transcript_content" "textA")
      "application_status" "Evaluation in-progress", none, none, none, none⟩

/-! ### S3 URI parsing and the extraction units
(student_application.py, parse_s3_uri lines 863-892, document_extraction_flow
lines 895-1010, extract_single_document_flow lines 1242-1308) -/

/-- Python truthiness of an optional character list (`not bucket_name`). -/
def truthyC : Option (List Char) → Bool
  | none => false
  | some l => !(l = [])

/-- `parse_s3_uri` over the characters of the URI: `(None, None)` for an
empty string, a missing `s3://` scheme or an empty remainder; otherwise the
remainder is split at the first `/` — the part before it is the bucket
(`None` when empty), the part after it is the key (`""` when there is no
slash or nothing follows it). -/
def parse_s3_core (s : List Char) : Option (List Char) × Option (List Char) :=
  if s = [] ∨ ¬ (s.take 5 = "s3://".data) then (none, none)
  else
    let path := s.drop 5
    if path = [] then (none, none)
    else
      let b := path.takeWhile (fun ch => !(ch = '/'))
      let rest := path.dropWhile (fun ch => !(ch = '/'))
      let bucket := if b = [] then none else some b
      let key :=
        match rest with
        | [] => some []
        | _ :: t => if t = [] then some [] else some t
      (bucket, key)

/-- `parse_s3_uri` (lines 863-892). -/
def parse_s3_uri (s : String) : Option (List Char) × Option (List Char) :=
  parse_s3_core s.data

/-- Outcome of one call of the external OCR capability
(`textractor_document_analysis`): a `SUCCEEDED` status with text, a
non-success status with an error, or an exception raised during the call
(or while decoding its result). -/
inductive TOut where
  | succeeded (text : String)
  | failedT (err : String)
  | raisedT (msg : String)

/-- The `extraction_results` tally dict of `document_extraction_flow`
(lines 925-929): lists of field names. -/
structure ETally where
  successful : List String
  failed : List String
  skipped : List String
deriving DecidableEq

/-- The `extract_document` helper closure of `document_extraction_flow`
(lines 931-964): an empty locator is skipped and yields Python `None`; an
invalid locator, a non-success OCR status or an exception yield the empty
string and a `failed` tally entry; a success yields the text. -/
def extract_document (ocr : String → String → TOut) (t : ETally)
    (s3_uri field_name : String) : Option String × ETally :=
  if s3_uri = "" then (none, { t with skipped := t.skipped ++ [field_name] })
  else
    let p := parse_s3_uri s3_uri
    if !truthyC p.1 || !truthyC p.2 then
      (some "", { t with failed := t.failed ++ [field_name] })
    else
      match ocr (String.mk (p.1.getD [])) (String.mk (p.2.getD [])) with
      | .succeeded text => (some text, { t with successful := t.successful ++ [field_name] })
      | .failedT _ => (some "", { t with failed := t.failed ++ [field_name] })
      | .raisedT _ => (some "", { t with failed := t.failed ++ [field_name] })

/-- The fixed registry of main document keys (`document_mapping`, identical at
lines 1059-1080 and 1131-1152). -/
def documentMapping : List (String × String) :=
  [("transcript", "transcript_content"),
   ("sop", "sop_content"),
   ("resume", "resume_content"),
   ("lor_academic", "lor_academic_content"),
   ("lor_research", "lor_research_content"),
   ("lor_professional", "lor_professional_content"),
   ("passport", "passport_content"),
   ("gre_report", "gre_report_content"),
   ("english_report", "english_report_content"),
   ("degree_certificate", "degree_certificate_content"),
   ("bank_statement", "bank_statement_content"),
   ("affidavit", "affidavit_content"),
   ("fee_receipt", "fee_receipt_content"),
   ("writing_sample", "writing_sample_content"),
   ("portfolio", "portfolio_content"),
   ("research_proposal", "research_proposal_content"),
   ("publication_certificate", "publication_certificate_content"),
   ("internship_certificate", "internship_certificate_content"),
   ("work_certificate", "work_certificate_content"),
   ("recommendation_letter_additional", "recommendation_letter_additional_content")]

/-- `_extract_main_documents` (lines 1045-1094) with the `extract_document`
closure of `document_extraction_flow`: for every registry key present in a
non-empty `documents` dict, extract and, whenever the helper returns a
string (including the empty string it returns for a failed extraction),
store it under the content key. -/
def _extract_main_documents (ocr : String → String → TOut) (student : Student)
    (t : ETally) : Student × ETally :=
  match student.documents with
  | none => (student, t)
  | some docs =>
    if docs = [] then (student, t)
    else
      documentMapping.foldl (fun acc dkck =>
        match dictGet docs dkck.1 with
        | none => acc
        | some uri =>
          let r := extract_document ocr acc.2 uri dkck.1
          match r.1 with
          | none => (acc.1, r.2)
          | some content =>
            ({ acc.1 with top := updStr acc.1.top dkck.2 content }, r.2)) (student, t)

/-! ### Claim C5: failed outcomes and record mutation -/

/-- Initial record for the C5 counterexample: one transcript document. -/
def stC5 : Student :=
  ⟨fun _ => none, some [("transcript", "s3://b/k.pdf")], none, none, none⟩

/-- OCR capability that fails every call with a non-success status. -/
def ocrAlwaysFails : String → String → TOut := fun _ _ => .failedT "Textract error"

/-- Record for the C3 witness: 2 research projects and 2 work entries. -/
def stC3 : Student :=
  ⟨fun _ => none, none, none, some ⟨some [emptyPMap, emptyPMap], emptyPMap⟩,
   some [emptyPMap, emptyPMap]⟩

/-- Nested outcome document aiming at research project index 2 (now stale). -/
def dC3re : PyDoc := ⟨some "nested", some "publication_content", "research_experience.projects.2"⟩

/-- Nested outcome document aiming at work entry index 2 (now stale). -/
def dC3we : PyDoc := ⟨some "nested", some "certificate_content", "work_experience.2"⟩

/-- The record persisted when the only wrapper is skipped: just the status
advance. -/
def stStatusOnly : Student :=
  ⟨updStr (fun _ => none) "application_status" "Evaluation in-progress",
   none, none, none, none⟩

/-! ### Claim C4: lifecycle status on stage failure
(student_application.py process_application_flow lines 275-337,
document_extraction_flow lines 895-1010, evaluate_application_flow lines
790-860, generate_report_flow lines 520-615)

Each flow is modelled as a function of its collaborator outcomes, returning
the flow's success flag together with the `application_status` value left
persisted in the application table by the call (`none` = the stored status
is not touched).  `dynamodb_put_item` raises on any failure (aws_utils.py
lines 139-179), so a `false` put parameter means that put raised: the item
is not stored and control jumps to the flow's `except` handler, which
returns `(False, ...)` — while every put that preceded the raising one has
already been persisted. -/

/-- `process_application_flow`: `appFound` = the record was loaded,
`startOk` = `start_state_machine` succeeded, `holdPutOk` / `procPutOk` =
the `dynamodb_put_item` calls at lines 324 / 329 did not raise.  On a start
failure the status is set to `"On-hold"` (line 323); on success to
`"Application processing"` (line 328); a raising put leaves the stored
status untouched and fails the flow via the `except` at line 334. -/
def process_application_flow (appFound startOk holdPutOk procPutOk : Bool) :
    Bool × Option String :=
  if !appFound then (false, none)
  else if !startOk then
    if holdPutOk then (false, some "On-hold") else (false, none)
  else if procPutOk then (true, some "Application processing")
  else (false, none)

/-- `evaluate_application_flow`: `agentOk` = the AI agent call succeeded,
`respValid` = its response is a dict, `statusPutOk` / `resultsPutOk` = the
`dynamodb_put_item` calls at lines 850 / 853 did not raise.  The status
`"Generating report"` is persisted to the application table (line 850)
before the evaluation results are saved to the evaluations table (line
853); if the results save raises, the `except` at line 857 returns failure
with the advanced status already stored. -/
def evaluate_application_flow (appFound agentOk respValid statusPutOk resultsPutOk : Bool) :
    Bool × Option String :=
  if !appFound then (false, none)
  else if !agentOk then (false, none)
  else if !respValid then (false, none)
  else if !statusPutOk then (false, none)
  else if !resultsPutOk then (false, some "Generating report")
  else (true, some "Generating report")

/-- `generate_report_flow`: `evalFound` = evaluation record found, `cohortOk`
= cohort scan succeeded, `uploadOk` = report upload succeeded, `reportPutOk`
= the evaluations-table put of the report URL (line 591) did not raise,
`appFound2` = the application record was found for the final status write,
`statusPutOk` = the application-table put at line 602 did not raise.
Failure paths write no application status; the success path writes
`"Processing complete"` (line 601) unless the application record is
missing, in which case it writes nothing but still succeeds. -/
def generate_report_flow (evalFound cohortOk uploadOk reportPutOk appFound2 statusPutOk : Bool) :
    Bool × Option String :=
  if !evalFound then (false, none)
  else if !cohortOk then (false, none)
  else if !uploadOk then (false, none)
  else if !reportPutOk then (false, none)
  else if !appFound2 then (true, none)
  else if statusPutOk then (true, some "Processing complete")
  else (false, none)

/-- Status behaviour of `document_extraction_flow`: `persistOk` = the
`dynamodb_put_item` call succeeded.  A failed persist returns `(False, ...)`
and the stored status is unchanged; success stores
`"Evaluation in-progress"` (line 975). -/
def document_extraction_flow_status (appFound persistOk : Bool) : Bool × Option String :=
  if !appFound then (false, none)
  else if !persistOk then (false, none)
  else (true, some "Evaluation in-progress")

/-! ### Cohort statistics engine (report_generation.py, StatisticalCalculator)

Numeric values are modelled as rationals: Python's `statistics.mean` and
`statistics.stdev` compute exactly over fractions before converting, and the
claims under verification are exact-arithmetic properties.  A null or NaN
entry of a sample is `none`.  The standard deviation is the real square root
of the sample variance, hence the `noncomputable` marker: the branch
decisions about it are settled by proof, not evaluation. -/

/-- `statistics.mean` of a non-empty list. -/
def StatisticalCalculator.mean (l : List ℚ) : ℚ := l.sum / (l.length : ℚ)

/-- The sample variance (`n - 1` divisor) that `statistics.stdev` takes the
square root of. -/
def StatisticalCalculator.sampleVariance (l : List ℚ) : ℚ :=
  ((l.map (fun x => (x - mean l) ^ 2)).sum) / ((l.length : ℚ) - 1)

/-- `StatisticalCalculator.calculate_percentile` (lines 56-71): `None` for an
empty sample, a `None` value or fewer than 2 entries; filter the null
entries and return `None` again when fewer than 2 remain; otherwise the
strict percentile rank `100 * |{x < value}| / n` (scipy
`percentileofscore(..., kind="strict")`), clamped to `[0, 100]`. -/
def StatisticalCalculator.calculate_percentile (value : Option ℚ) (all_values : List (Option ℚ)) :
    Option ℚ :=
  if all_values = [] then none
  else
    match value with
    | none => none
    | some v =>
      if all_values.length < 2 then none
      else
        let valid_values := all_values.filterMap id
        if valid_values.length < 2 then none
        else
          let percentile := 100 * ((valid_values.countP (fun x => decide (x < v))) : ℚ) /
            ((valid_values.length : ℚ))
          some (max 0 (min 100 percentile))

/-- `StatisticalCalculator.calculate_z_score` (lines 73-93): `None` for an
empty or length-below-2 sample and when fewer than 2 valid entries remain;
`0` when the standard deviation is zero (all valid values equal); otherwise
`(value - mean) / stdev`.  A `None` value reaches the subtraction, raises
`TypeError` and is converted to `None` by the `except` clause. -/
noncomputable def StatisticalCalculator.calculate_z_score (value : Option ℚ) (all_values : List (Option ℚ)) :
    Option ℝ :=
  if all_values = [] then none
  else if all_values.length < 2 then none
  else
    let valid_values := all_values.filterMap id
    if valid_values.length < 2 then none
    else
      let m := mean valid_values
      let stdev := Real.sqrt ((sampleVariance valid_values : ℚ) : ℝ)
      if stdev = 0 then some 0
      else
        match value with
        | none => none
        | some v => some (((v - m : ℚ) : ℝ) / stdev)

/-! ### Claim C7: the extraction unit never propagates a fault -/

/-- The outcome dict of `extract_single_document_flow`, restricted to status,
error and content (the echoed application id and document are elided). -/
structure EOut where
  status : String
  error : Option String
  content : String
deriving DecidableEq

/-- Core of `extract_single_document_flow` (lines 1242-1308), given the
task's `s3_uri` and the OCR capability: an invalid locator yields the
`(True, failed "Invalid S3 URI")` outcome with empty content (lines
1268-1276); a capability failure or an exception raised during the
capability call or result decoding (constructor `raisedT`, caught by the
outer `except` at lines 1299-1308) yields `(True, failed <error>)`;
success echoes the text. -/
def extract_single_document_flow (ocr : String → String → TOut) (s3_uri : String) :
    Bool × EOut :=
  let p := parse_s3_uri s3_uri
  if !truthyC p.1 || !truthyC p.2 then
    (true, ⟨"failed", some "Invalid S3 URI", ""⟩)
  else
    match ocr (String.mk (p.1.getD [])) (String.mk (p.2.getD [])) with
    | .succeeded text => (true, ⟨"success", none, text⟩)
    | .failedT e => (true, ⟨"failed", some e, ""⟩)
    | .raisedT m => (true, ⟨"failed", some m, ""⟩)

/-- A locator matching the expected `s3://container/key` addressing scheme
with a non-empty container (no slash) and a non-empty key. -/
def wellFormedS3 (s : String) : Prop :=
  ∃ b k : List Char, b ≠ [] ∧ ('/' ∈ b → False) ∧ k ≠ [] ∧
    s.data = "s3://".data ++ (b ++ '/' :: k)

/-- Decidable test equivalent to `wellFormedS3`: both parse components are
truthy. -/
def checkS3 (s : String) : Bool :=
  truthyC (parse_s3_uri s).1 && truthyC (parse_s3_uri s).2

/-! ### Claim C6: the document set resolver
(student_application.py, prepare_document_list_flow lines 1097-1239) -/

/-- One extraction task as built by `prepare_document_list_flow`. -/
structure DocTask where
  application_id : String
  document_type : String
  document_key : String
  content_key : String
  s3_uri : String
  parent_path : Option String
deriving DecidableEq

/-- Index-carrying enumeration (Python `enumerate`). -/
def enumFromL {α : Type} (k : Nat) : List α → List (Nat × α)
  | [] => []
  | a :: l => (k, a) :: enumFromL (k + 1) l

/-- The task list built by `prepare_document_list_flow` for a loaded record:
the flat `documents` mapping scanned against the fixed registry in registry
order, then the `personal_information` government id, then the two ordered
lists, each entry contributing its (up to two) present, non-empty document
references in source order.  An empty or absent locator contributes no task. -/
def prepare_document_list (appId : String) (st : Student) : List DocTask :=
  (match st.documents with
   | none => []
   | some docs =>
     documentMapping.filterMap (fun dkck =>
       if truthy (dictGet docs dkck.1) then
         some ⟨appId, "main", dkck.1, dkck.2, (dictGet docs dkck.1).getD "", none⟩
       else none)) ++
  (match st.personal_information with
   | none => []
   | some pinfo =>
     if truthy (pinfo (some "government_id_document")) then
       [⟨appId, "nested", "personal_information.government_id_document",
         "government_id_content", (pinfo (some "government_id_document")).getD "",
         some "personal_information"⟩]
     else []) ++
  (match st.research_experience with
   | none => []
   | some re =>
     (enumFromL 0 (re.projects.getD [])).flatMap (fun ip =>
       (if truthy (ip.2 (some "publication_document")) then
         [⟨appId, "nested",
           "research_experience.projects[" ++ toString ip.1 ++ "].publication_document",
           "publication_content", (ip.2 (some "publication_document")).getD "",
           some ("research_experience.projects." ++ toString ip.1)⟩]
        else []) ++
       (if truthy (ip.2 (some "report_document")) then
         [⟨appId, "nested",
           "research_experience.projects[" ++ toString ip.1 ++ "].report_document",
           "report_content", (ip.2 (some "report_document")).getD "",
           some ("research_experience.projects." ++ toString ip.1)⟩]
        else []))) ++
  (match st.work_experience with
   | none => []
   | some wlist =>
     (enumFromL 0 wlist).flatMap (fun ip =>
       (if truthy (ip.2 (some "certificate_document")) then
         [⟨appId, "nested",
           "work_experience[" ++ toString ip.1 ++ "].certificate_document",
           "certificate_content", (ip.2 (some "certificate_document")).getD "",
           some ("work_experience." ++ toString ip.1)⟩]
        else []) ++
       (if truthy (ip.2 (some "recommendation_document")) then
         [⟨appId, "nested",
           "work_experience[" ++ toString ip.1 ++ "].recommendation_document",
           "recommendation_content", (ip.2 (some "recommendation_document")).getD "",
           some ("work_experience." ++ toString ip.1)⟩]
        else [])))

/-- The whole flow given the loaded record (`none` = application not found,
the flow's `(False, ...)` path): a found record always yields success with
the task list and its count — an empty list is not an error. -/
def prepare_document_list_flow (appId : String) (found : Option Student) :
    Bool × List DocTask × Nat :=
  match found with
  | none => (false, [], 0)
  | some st =>
    (true, prepare_document_list appId st, (prepare_document_list appId st).length)

/-- The addressable document locator slots of a record. -/
inductive LocAddr where
  | mainL (dk ck : String)
  | giL
  | pubL (i : Nat)
  | repL (i : Nat)
  | certL (i : Nat)
  | recL (i : Nat)
deriving DecidableEq

/-- The research project at index `i`, if any. -/
def projAt (st : Student) (i : Nat) : Option PMap :=
  match st.research_experience with
  | none => none
  | some re => (re.projects.getD [])[i]?

/-- The work entry at index `i`, if any. -/
def weAt (st : Student) (i : Nat) : Option PMap :=
  st.work_experience.bind (fun l => l[i]?)

/-- The locator stored at an addressable slot of the record. -/
def lookupLoc (st : Student) : LocAddr → Option String
  | .mainL dk _ => st.documents.bind (fun docs => dictGet docs dk)
  | .giL => st.personal_information.bind (fun pinfo => pinfo (some "government_id_document"))
  | .pubL i => (projAt st i).bind (fun p => p (some "publication_document"))
  | .repL i => (projAt st i).bind (fun p => p (some "report_document"))
  | .certL i => (weAt st i).bind (fun p => p (some "certificate_document"))
  | .recL i => (weAt st i).bind (fun p => p (some "recommendation_document"))

/-- All addressable slots of a record, in resolver scan order. -/
def allAddrs (st : Student) : List LocAddr :=
  documentMapping.map (fun p => .mainL p.1 p.2) ++ [.giL] ++
  (enumFromL 0 (match st.research_experience with
    | none => ([] : List PMap)
    | some re => re.projects.getD [])).flatMap (fun ip => [.pubL ip.1, .repL ip.1]) ++
  (enumFromL 0 (st.work_experience.getD [])).flatMap (fun ip => [.certL ip.1, .recL ip.1])

/-- The slots holding a present, non-empty locator. -/
def presentLocs (st : Student) : List LocAddr :=
  (allAddrs st).filter (fun a => truthy (lookupLoc st a))

/-- The task the resolver emits for a present slot. -/
def mkTask (appId : String) (st : Student) : LocAddr → DocTask
  | .mainL dk ck => ⟨appId, "main", dk, ck, (lookupLoc st (.mainL dk ck)).getD "", none⟩
  | .giL => ⟨appId, "nested", "personal_information.government_id_document",
      "government_id_content", (lookupLoc st .giL).getD "", some "personal_information"⟩
  | .pubL i => ⟨appId, "nested",
      "research_experience.projects[" ++ toString i ++ "].publication_document",
      "publication_content", (lookupLoc st (.pubL i)).getD "",
      some ("research_experience.projects." ++ toString i)⟩
  | .repL i => ⟨appId, "nested",
      "research_experience.projects[" ++ toString i ++ "].report_document",
      "report_content", (lookupLoc st (.repL i)).getD "",
      some ("research_experience.projects." ++ toString i)⟩
  | .certL i => ⟨appId, "nested",
      "work_experience[" ++ toString i ++ "].certificate_document",
      "certificate_content", (lookupLoc st (.certL i)).getD "",
      some ("work_experience." ++ toString i)⟩
  | .recL i => ⟨appId, "nested",
      "work_experience[" ++ toString i ++ "].recommendation_document",
      "recommendation_content", (lookupLoc st (.recL i)).getD "",
      some ("work_experience." ++ toString i)⟩

/-! ## Lemmas and claim theorems -/

theorem REx.ext_projections {a b : REx} (h1 : a.projects = b.projects)
    (h2 : a.rest = b.rest) : a = b := by
  cases a; cases b; cases h1; cases h2; rfl

theorem Student.ext_fields {s t : Student} (h1 : s.top = t.top)
    (h2 : s.documents = t.documents)
    (h3 : s.personal_information = t.personal_information)
    (h4 : s.research_experience = t.research_experience)
    (h5 : s.work_experience = t.work_experience) : s = t := by
  cases s; cases t; cases h1; cases h2; cases h3; cases h4; cases h5; rfl

/-! ### Characterisation of the consolidation loop -/

theorem writeT_shape (st : Student) (t : WT) (c : String) :
    (writeT st t c).shape = st.shape := by
  cases t with
  | mainT k => rfl
  | piT k => rfl
  | reT j k =>
    cases h : st.research_experience with
    | none => simp [writeT, Student.shape, h]
    | some re =>
      cases hp : re.projects with
      | none => simp [writeT, Student.shape, h, hp]
      | some ps => simp [writeT, Student.shape, h, hp]
  | weT j k =>
    cases h : st.work_experience with
    | none => simp [writeT, Student.shape, h]
    | some ws => simp [writeT, Student.shape, h]

theorem execPlan_eq_fires (st : Student) (p : WPlan) (c : String) :
    execPlan st p c =
      (firesP st.shape p).map (fun o =>
        match o with
        | none => st
        | some t => writeT st t c) := by
  cases p with
  | noop => rfl
  | perr => rfl
  | wMain k => rfl
  | wPI k => rfl
  | wRE i k =>
    cases h : st.research_experience with
    | none => simp [execPlan, firesP, Student.shape, h]
    | some re =>
      cases hp : re.projects with
      | none => simp [execPlan, firesP, Student.shape, h, hp]
      | some ps =>
        simp only [execPlan, firesP, Student.shape, h, hp, Option.map_some']
        by_cases hi : i < (ps.length : Int)
        · simp only [hi, if_pos, pyListModify]
          cases hn : normIdx ps.length i with
          | none => simp [hn]
          | some j => simp [hn, writeT, h, hp]
        · simp [hi]
  | wWE i k =>
    cases h : st.work_experience with
    | none => simp [execPlan, firesP, Student.shape, h]
    | some ws =>
      simp only [execPlan, firesP, Student.shape, h, Option.map_some']
      by_cases hi : i < (ws.length : Int)
      · simp only [hi, if_pos, pyListModify]
        cases hn : normIdx ws.length i with
        | none => simp [hn]
        | some j => simp [hn, writeT, h]
      · simp [hi]

theorem cntS_cons (w : Wrapper) (ws : List Wrapper) :
    cntS (w :: ws) = cntS ws + deltaS w := by
  by_cases h : wStatus w = some "success" <;>
    simp [cntS, List.countP_cons, deltaS, h]

theorem cntF_cons (w : Wrapper) (ws : List Wrapper) :
    cntF (w :: ws) = cntF ws + deltaF w := by
  by_cases h : wStatus w = some "failed" <;>
    simp [cntF, List.countP_cons, deltaF, h]

theorem cntK_cons (w : Wrapper) (ws : List Wrapper) :
    cntK (w :: ws) = cntK ws + deltaK w := by
  by_cases h1 : wStatus w = some "success" <;> by_cases h2 : wStatus w = some "failed" <;>
    simp [cntK, List.countP_cons, deltaK, h1, h2]

/-- One loop iteration, described by the wrapper's fire behaviour at the
record's shape. -/
theorem consolidateStep_char (cs : CState) (w : Wrapper) :
    consolidateStep (some cs) w =
      (fireOfW cs.student.shape w).map (fun o =>
        ⟨(match o with
          | none => cs.student
          | some tc => writeT cs.student tc.1 tc.2),
         cs.successful + deltaS w, cs.failed + deltaF w, cs.skipped + deltaK w⟩) := by
  rw [consolidateStep]
  cases hs : (w.getD emptyResult).status with
  | none =>
    simp [fireOfW, hs, deltaS, deltaF, deltaK, wStatus]
  | some s =>
    by_cases h1 : s = "success"
    · subst h1
      simp only [if_pos rfl, fireOfW, hs, execPlan_eq_fires]
      cases hf : firesP cs.student.shape (wplan (w.getD emptyResult).document) with
      | none => simp [hf]
      | some o =>
        cases o with
        | none => simp [hf, deltaS, deltaF, deltaK, wStatus, hs]
        | some t => simp [hf, deltaS, deltaF, deltaK, wStatus, hs]
    · by_cases h2 : s = "failed"
      · subst h2
        simp [fireOfW, hs, h1, deltaS, deltaF, deltaK, wStatus]
      · simp [fireOfW, hs, h1, h2, deltaS, deltaF, deltaK, wStatus]

theorem foldl_step_none (ws : List Wrapper) : ws.foldl consolidateStep none = none := by
  induction ws with
  | nil => rfl
  | cons w ws ih => simpa [consolidateStep] using ih

/-- If no wrapper raises, the loop is the pure fold of the fired assignments,
and the tallies are pure counts. -/
theorem foldl_step_eq (ws : List Wrapper) : ∀ (st : Student) (a b c : Nat),
    (∀ w ∈ ws, fireOfW st.shape w ≠ none) →
    ws.foldl consolidateStep (some ⟨st, a, b, c⟩) =
      some ⟨foldWrites st (firedWrites st.shape ws),
            a + cntS ws, b + cntF ws, c + cntK ws⟩ := by
  induction ws with
  | nil => intro st a b c _; simp [foldWrites, firedWrites, cntS, cntF, cntK]
  | cons w ws ih =>
    intro st a b c h
    have hw : fireOfW st.shape w ≠ none := h w (by simp)
    have hrest : ∀ w2 ∈ ws, fireOfW st.shape w2 ≠ none := fun w2 hm => h w2 (by simp [hm])
    rw [List.foldl_cons, consolidateStep_char]
    cases hf : fireOfW st.shape w with
    | none => exact absurd hf hw
    | some o =>
      cases o with
      | none =>
        simp only [Option.map_some']
        rw [ih st (a + deltaS w) (b + deltaF w) (c + deltaK w) hrest]
        have hfw : firedWrites st.shape (w :: ws) = firedWrites st.shape ws := by
          simp [firedWrites, hf]
        rw [hfw, cntS_cons, cntF_cons, cntK_cons]
        refine congrArg some ?_
        simp only [CState.mk.injEq]
        exact ⟨trivial, by omega, by omega, by omega⟩
      | some tc =>
        simp only [Option.map_some']
        have hsh : (writeT st tc.1 tc.2).shape = st.shape := writeT_shape st tc.1 tc.2
        have hrest2 : ∀ w2 ∈ ws, fireOfW (writeT st tc.1 tc.2).shape w2 ≠ none := by
          rw [hsh]; exact hrest
        rw [ih (writeT st tc.1 tc.2) (a + deltaS w) (b + deltaF w) (c + deltaK w) hrest2]
        have hfw : firedWrites st.shape (w :: ws) = tc :: firedWrites st.shape ws := by
          simp [firedWrites, hf]
        rw [hfw, hsh, cntS_cons, cntF_cons, cntK_cons]
        refine congrArg some ?_
        have hfold : foldWrites st (tc :: firedWrites st.shape ws) =
            foldWrites (writeT st tc.1 tc.2) (firedWrites st.shape ws) := rfl
        rw [hfold]
        simp only [CState.mk.injEq]
        exact ⟨trivial, by omega, by omega, by omega⟩

/-- If some wrapper raises, the whole loop raises. -/
theorem foldl_step_raise (ws : List Wrapper) : ∀ (st : Student) (a b c : Nat),
    (∃ w ∈ ws, fireOfW st.shape w = none) →
    ws.foldl consolidateStep (some ⟨st, a, b, c⟩) = none := by
  induction ws with
  | nil => intro st a b c h; simp at h
  | cons w ws ih =>
    intro st a b c h
    rw [List.foldl_cons, consolidateStep_char]
    cases hf : fireOfW st.shape w with
    | none => simp [foldl_step_none]
    | some o =>
      rcases h with ⟨w2, hm, hr⟩
      rcases List.mem_cons.mp hm with rfl | hm2
      · exact absurd hr (by simp [hf])
      cases o with
      | none =>
        simp only [Option.map_some']
        exact ih st _ _ _ ⟨w2, hm2, hr⟩
      | some tc =>
        simp only [Option.map_some']
        refine ih (writeT st tc.1 tc.2) _ _ _ ⟨w2, hm2, ?_⟩
        rw [writeT_shape]; exact hr

/-! ### Commutation of writes at distinct targets -/

theorem modify_comm {α : Type} (f g : α → α) {i j : Nat} (hij : i ≠ j) (l : List α) :
    List.modify f i (List.modify g j l) = List.modify g j (List.modify f i l) := by
  apply List.ext_get
  · simp
  · intro n h1 h2
    simp only [List.get_eq_getElem, List.getElem_modify]
    rcases eq_or_ne i n with rfl | hin
    · simp [Ne.symm hij]
    · rcases eq_or_ne j n with rfl | hjn
      · simp [hij, hin]
      · simp [hin, hjn]

theorem modify_modify_same {α : Type} (f g : α → α) (i : Nat) (l : List α) :
    List.modify f i (List.modify g i l) = List.modify (fun x => f (g x)) i l := by
  apply List.ext_get
  · simp
  · intro n h1 h2
    simp only [List.get_eq_getElem, List.getElem_modify]
    rcases eq_or_ne i n with rfl | hin
    · simp
    · simp [hin]

theorem updStr_comm (m : SMap) {k1 k2 : String} (hk : k1 ≠ k2) (v1 v2 : String) :
    updStr (updStr m k1 v1) k2 v2 = updStr (updStr m k2 v2) k1 v1 := by
  funext x
  simp only [updStr]
  rcases eq_or_ne x k1 with rfl | h1
  · simp [hk]
  · rcases eq_or_ne x k2 with rfl | h2
    · simp [Ne.symm hk]
    · simp [h1, h2]

theorem updPMap_comm (m : PMap) {k1 k2 : Option String} (hk : k1 ≠ k2) (v1 v2 : String) :
    updPMap (updPMap m k1 v1) k2 v2 = updPMap (updPMap m k2 v2) k1 v1 := by
  funext x
  simp only [updPMap]
  rcases eq_or_ne x k1 with rfl | h1
  · simp [hk]
  · rcases eq_or_ne x k2 with rfl | h2
    · simp [Ne.symm hk]
    · simp [h1, h2]

theorem writeT_comm (s : Student) {t1 t2 : WT} (hne : t1 ≠ t2) (c1 c2 : String) :
    writeT (writeT s t1 c1) t2 c2 = writeT (writeT s t2 c2) t1 c1 := by
  cases t1 with
  | mainT k1 =>
    cases t2 with
    | mainT k2 =>
      have hk : k1 ≠ k2 := fun h => hne (by rw [h])
      exact Student.ext_fields (updStr_comm s.top hk c1 c2) rfl rfl rfl rfl
    | piT k2 => rfl
    | reT j2 k2 => rfl
    | weT j2 k2 => rfl
  | piT k1 =>
    cases t2 with
    | mainT k2 => rfl
    | piT k2 =>
      have hk : k1 ≠ k2 := fun h => hne (by rw [h])
      exact Student.ext_fields rfl rfl (congrArg some (updPMap_comm _ hk c1 c2)) rfl rfl
    | reT j2 k2 => rfl
    | weT j2 k2 => rfl
  | reT j1 k1 =>
    cases t2 with
    | mainT k2 => rfl
    | piT k2 => rfl
    | weT j2 k2 => rfl
    | reT j2 k2 =>
      refine Student.ext_fields rfl rfl rfl ?_ rfl
      show (s.research_experience.map _).map _ = (s.research_experience.map _).map _
      rw [Option.map_map, Option.map_map]
      refine congrArg (fun f => Option.map f s.research_experience) ?_
      funext re
      simp only [Function.comp]
      refine REx.ext_projections ?_ rfl
      show (re.projects.map _).map _ = (re.projects.map _).map _
      rw [Option.map_map, Option.map_map]
      refine congrArg (fun f => Option.map f re.projects) ?_
      funext ps
      simp only [Function.comp]
      rcases eq_or_ne j1 j2 with rfl | hj
      · have hk : k1 ≠ k2 := fun h => hne (by rw [h])
        rw [modify_modify_same, modify_modify_same]
        refine congrArg (fun f => List.modify f j1 ps) ?_
        funext pr
        exact updPMap_comm pr hk c1 c2
      · exact modify_comm _ _ (Ne.symm hj) ps
  | weT j1 k1 =>
    cases t2 with
    | mainT k2 => rfl
    | piT k2 => rfl
    | reT j2 k2 => rfl
    | weT j2 k2 =>
      refine Student.ext_fields rfl rfl rfl rfl ?_
      show (s.work_experience.map _).map _ = (s.work_experience.map _).map _
      rw [Option.map_map, Option.map_map]
      refine congrArg (fun f => Option.map f s.work_experience) ?_
      funext ws
      simp only [Function.comp]
      rcases eq_or_ne j1 j2 with rfl | hj
      · have hk : k1 ≠ k2 := fun h => hne (by rw [h])
        rw [modify_modify_same, modify_modify_same]
        refine congrArg (fun f => List.modify f j1 ws) ?_
        funext pr
        exact updPMap_comm pr hk c1 c2
      · exact modify_comm _ _ (Ne.symm hj) ws

/-! ### Order independence under pairwise-distinct targets -/

/-- Claim C1 (amended): consolidation is order-independent for every wrapper
list whose successful outcomes have pairwise-distinct write-back targets (as
is the case for the outcomes of one resolver run): consolidating any
permutation of the list against the same initial record produces the
identical final record and summary.  The unrestricted claim is refuted by
`consolidate_order_dependence_cex`: two successful outcomes writing
different content to the same content field make the result depend on their
order. -/
theorem consolidate_order_independent (st : Student) (ws1 ws2 : List Wrapper)
    (hperm : ws1.Perm ws2)
    (hdist : ∀ w1 ∈ ws1, ∀ w2 ∈ ws1, w1 = w2 ∨ wtargetOf st.shape w1 = none ∨
             wtargetOf st.shape w2 = none ∨ wtargetOf st.shape w1 ≠ wtargetOf st.shape w2) :
    consolidate_extraction_results_flow st ws1 = consolidate_extraction_results_flow st ws2 := by
  by_cases hr : ∀ w ∈ ws1, fireOfW st.shape w ≠ none
  · have hr2 : ∀ w ∈ ws2, fireOfW st.shape w ≠ none := fun w hm => hr w (hperm.mem_iff.mpr hm)
    unfold consolidate_extraction_results_flow
    rw [foldl_step_eq ws1 st 0 0 0 hr, foldl_step_eq ws2 st 0 0 0 hr2]
    have hcS : cntS ws1 = cntS ws2 := List.Perm.countP_eq _ hperm
    have hcF : cntF ws1 = cntF ws2 := List.Perm.countP_eq _ hperm
    have hcK : cntK ws1 = cntK ws2 := List.Perm.countP_eq _ hperm
    have hlen : ws1.length = ws2.length := hperm.length_eq
    have hfw : foldWrites st (firedWrites st.shape ws1) =
        foldWrites st (firedWrites st.shape ws2) := by
      have hp : (firedWrites st.shape ws1).Perm (firedWrites st.shape ws2) :=
        hperm.filterMap _
      refine hp.foldl_eq' ?_ st
      intro x hx y hy z
      obtain ⟨w1, hw1m, hw1⟩ := List.mem_filterMap.mp hx
      obtain ⟨w2, hw2m, hw2⟩ := List.mem_filterMap.mp hy
      have ht1 : fireOfW st.shape w1 = some (some x) := by
        cases hf : fireOfW st.shape w1 with
        | none => rw [hf] at hw1; cases hw1
        | some o => rw [hf] at hw1; simp only [Option.getD_some] at hw1; rw [hw1]
      have ht2 : fireOfW st.shape w2 = some (some y) := by
        cases hf : fireOfW st.shape w2 with
        | none => rw [hf] at hw2; cases hw2
        | some o => rw [hf] at hw2; simp only [Option.getD_some] at hw2; rw [hw2]
      rcases hdist w1 hw1m w2 hw2m with heq | h | h | h
      · subst heq
        rw [ht1] at ht2
        cases ht2
        rfl
      · simp [wtargetOf, ht1] at h
      · simp [wtargetOf, ht2] at h
      · have hne : x.1 ≠ y.1 := by
          simp only [wtargetOf, ht1, ht2, Option.getD_some, Option.map_some'] at h
          intro he
          exact h (by rw [he])
        exact writeT_comm z hne x.2 y.2
    rw [hcS, hcF, hcK, hlen, hfw]
  · push_neg at hr
    obtain ⟨w, hm, hw⟩ := hr
    unfold consolidate_extraction_results_flow
    rw [foldl_step_raise ws1 st 0 0 0 ⟨w, hm, hw⟩,
        foldl_step_raise ws2 st 0 0 0 ⟨w, hperm.mem_iff.mp hm, hw⟩]
    rfl

/-! ### Denotation of assignment sequences (last writer wins) -/

theorem orO_some (v : String) (b : Option String) : orO (some v) b = some v := rfl

theorem orO_none (b : Option String) : orO none b = b := rfl

theorem orO_assoc (a b c : Option String) : orO (orO a b) c = orO a (orO b c) := by
  cases a <;> rfl

theorem orO_self (a : Option String) : orO a a = a := by
  cases a <;> rfl

theorem lastVal_cons (t2 : WT) (c2 : String) (t : WT) (X : List (WT × String)) :
    lastVal t ((t2, c2) :: X) = orO (lastVal t X) (if t2 = t then some c2 else none) := by
  cases h : lastVal t X <;> simp [lastVal, h, orO]

theorem lastVal_append (t : WT) (A B : List (WT × String)) :
    lastVal t (A ++ B) = orO (lastVal t B) (lastVal t A) := by
  induction A with
  | nil => cases h : lastVal t B <;> simp [lastVal, orO, h]
  | cons e A ih =>
    obtain ⟨t2, c2⟩ := e
    rw [List.cons_append, lastVal_cons, ih, lastVal_cons, orO_assoc]

theorem lastVal_self_append (t : WT) (X : List (WT × String)) :
    lastVal t (X ++ X) = lastVal t X := by
  rw [lastVal_append, orO_self]

theorem hasPI_cons (e : WT × String) (X : List (WT × String)) :
    hasPI (e :: X) = (isPiW e.1 || hasPI X) := by
  simp [hasPI]

theorem hasPI_self_append (X : List (WT × String)) : hasPI (X ++ X) = hasPI X := by
  simp [hasPI, List.any_append]

theorem lastVal_pi_none (k : Option String) (X : List (WT × String))
    (h : hasPI X = false) : lastVal (.piT k) X = none := by
  induction X with
  | nil => rfl
  | cons e X ih =>
    rw [hasPI_cons] at h
    rcases Bool.or_eq_false_iff.mp h with ⟨h1, h2⟩
    obtain ⟨t2, c2⟩ := e
    rw [lastVal_cons, ih h2, orO_none]
    cases t2 <;> simp_all [isPiW]

theorem mapIdx_id_fun {α : Type} (l : List α) : List.mapIdx (fun _ a => a) l = l := by
  apply List.ext_get
  · simp
  · intro n h1 h2
    simp [List.getElem_mapIdx]

theorem applyOps_nil (s : Student) : applyOps [] s = s := by
  refine Student.ext_fields ?_ rfl ?_ ?_ ?_
  · funext k; rfl
  · rfl
  · show s.research_experience.map _ = s.research_experience
    have : ∀ re : REx, (fun re : REx =>
        { re with projects := re.projects.map (fun ps =>
            ps.mapIdx (fun j pr => fun k => orO (lastVal (.reT j k) []) (pr k))) }) re = re := by
      intro re
      refine REx.ext_projections ?_ rfl
      show re.projects.map _ = re.projects
      have : ∀ ps : List PMap,
          ps.mapIdx (fun j pr => fun k => orO (lastVal (.reT j k) []) (pr k)) = ps := by
        intro ps
        exact mapIdx_id_fun ps
      calc re.projects.map (fun ps =>
              ps.mapIdx (fun j pr => fun k => orO (lastVal (.reT j k) []) (pr k)))
            = re.projects.map (fun ps => ps) := by
              cases re.projects with
              | none => rfl
              | some ps => simp only [Option.map_some']; exact congrArg some (this ps)
          _ = re.projects := by cases re.projects <;> rfl
    calc s.research_experience.map _ = s.research_experience.map (fun re => re) := by
          cases hre : s.research_experience with
          | none => rfl
          | some re => simp only [Option.map_some']; exact congrArg some (this re)
      _ = s.research_experience := by cases s.research_experience <;> rfl
  · show s.work_experience.map _ = s.work_experience
    have : ∀ ws : List PMap,
        ws.mapIdx (fun j pr => fun k => orO (lastVal (.weT j k) []) (pr k)) = ws := by
      intro ws
      exact mapIdx_id_fun ws
    calc s.work_experience.map _ = s.work_experience.map (fun ws => ws) := by
          cases s.work_experience with
          | none => rfl
          | some ws => simp only [Option.map_some']; exact congrArg some (this ws)
      _ = s.work_experience := by cases s.work_experience <;> rfl

theorem orO_none_right (a : Option String) : orO a none = a := by
  cases a <;> rfl

theorem lastVal_cons_ne (t2 : WT) (c2 : String) (t : WT) (X : List (WT × String))
    (h : t2 ≠ t) : lastVal t ((t2, c2) :: X) = lastVal t X := by
  rw [lastVal_cons, if_neg h, orO_none_right]

theorem omap_congr {α β : Type} {f g : α → β} (h : ∀ a, f a = g a) (o : Option α) :
    o.map f = o.map g := by
  cases o with
  | none => rfl
  | some a => exact congrArg some (h a)

theorem mapIdx_congr_fun {α β : Type} {f g : Nat → α → β} (h : ∀ i a, f i a = g i a)
    (l : List α) : l.mapIdx f = l.mapIdx g := by
  apply List.ext_get
  · simp
  · intro n h1 h2
    simp only [List.get_eq_getElem, List.getElem_mapIdx]
    exact h n _

theorem mapIdx_modify {α β : Type} (g : Nat → α → β) (f : α → α) (j : Nat) (l : List α) :
    (List.modify f j l).mapIdx g = l.mapIdx (fun i a => if j = i then g i (f a) else g i a) := by
  apply List.ext_get
  · simp
  · intro n h1 h2
    simp only [List.get_eq_getElem, List.getElem_mapIdx, List.getElem_modify]
    rcases eq_or_ne j n with rfl | hj
    · simp
    · simp [hj]

theorem applyOps_cons (t : WT) (c : String) (X : List (WT × String)) (s : Student) :
    applyOps ((t, c) :: X) s = applyOps X (writeT s t c) := by
  cases t with
  | mainT k0 =>
    refine Student.ext_fields ?_ rfl ?_ ?_ ?_
    · funext k
      show orO (lastVal (.mainT k) ((WT.mainT k0, c) :: X)) (s.top k) =
        orO (lastVal (.mainT k) X) (updStr s.top k0 c k)
      rw [lastVal_cons, orO_assoc]
      refine congrArg (orO (lastVal (.mainT k) X)) ?_
      by_cases hk : k = k0
      · subst hk; simp [updStr, orO]
      · simp only [updStr, if_neg hk, WT.mainT.injEq, if_neg (Ne.symm hk), orO]
    · have hpc : hasPI ((WT.mainT k0, c) :: X) = hasPI X := by
        rw [hasPI_cons]; rfl
      have hb : (fun k => orO (lastVal (.piT k) ((WT.mainT k0, c) :: X))
            ((s.personal_information.getD emptyPMap) k)) =
          (fun k => orO (lastVal (.piT k) X) ((s.personal_information.getD emptyPMap) k)) := by
        funext k
        rw [lastVal_cons_ne _ _ _ _ (by simp)]
      show (if hasPI ((WT.mainT k0, c) :: X) then _ else _) = (if hasPI X then _ else _)
      rw [hpc, hb]
      rfl
    · refine omap_congr ?_ s.research_experience
      intro re
      refine REx.ext_projections ?_ rfl
      refine omap_congr ?_ re.projects
      intro ps
      refine mapIdx_congr_fun ?_ ps
      intro i pr
      funext k
      rw [lastVal_cons_ne _ _ _ _ (by simp)]
    · refine omap_congr ?_ s.work_experience
      intro ws
      refine mapIdx_congr_fun ?_ ws
      intro i pr
      funext k
      rw [lastVal_cons_ne _ _ _ _ (by simp)]
  | piT k0 =>
    refine Student.ext_fields ?_ rfl ?_ ?_ ?_
    · funext k
      show orO (lastVal (.mainT k) ((WT.piT k0, c) :: X)) (s.top k) =
        orO (lastVal (.mainT k) X) ((writeT s (.piT k0) c).top k)
      rw [lastVal_cons_ne _ _ _ _ (by simp)]
      rfl
    · have hpc : hasPI ((WT.piT k0, c) :: X) = true := by
        rw [hasPI_cons]; rfl
      simp only [applyOps]
      rw [hpc]
      rw [if_pos rfl]
      by_cases h : hasPI X
      · rw [if_pos h]
        refine congrArg some ?_
        funext k
        rw [lastVal_cons, orO_assoc]
        refine congrArg (orO (lastVal (.piT k) X)) ?_
        show orO (if WT.piT k0 = WT.piT k then some c else none)
            ((s.personal_information.getD emptyPMap) k) =
          ((((writeT s (.piT k0) c).personal_information).getD emptyPMap) k)
        by_cases hk : k = k0
        · subst hk; simp [writeT, updPMap, orO]
        · simp only [WT.piT.injEq, if_neg (Ne.symm hk), orO, writeT, Option.getD_some,
            updPMap, if_neg hk]
      · rw [if_neg h]
        refine congrArg some ?_
        funext k
        rw [lastVal_cons, lastVal_pi_none k X (Bool.not_eq_true _ ▸ eq_false_of_ne_true h), orO_none]
        show orO (if WT.piT k0 = WT.piT k then some c else none)
            ((s.personal_information.getD emptyPMap) k) =
          (updPMap (s.personal_information.getD emptyPMap) k0 c) k
        by_cases hk : k = k0
        · subst hk; simp [updPMap, orO]
        · simp only [WT.piT.injEq, if_neg (Ne.symm hk), orO, updPMap, if_neg hk]
    · refine omap_congr ?_ s.research_experience
      intro re
      refine REx.ext_projections ?_ rfl
      refine omap_congr ?_ re.projects
      intro ps
      refine mapIdx_congr_fun ?_ ps
      intro i pr
      funext k
      rw [lastVal_cons_ne _ _ _ _ (by simp)]
    · refine omap_congr ?_ s.work_experience
      intro ws
      refine mapIdx_congr_fun ?_ ws
      intro i pr
      funext k
      rw [lastVal_cons_ne _ _ _ _ (by simp)]
  | reT j0 k0 =>
    refine Student.ext_fields ?_ rfl ?_ ?_ ?_
    · funext k
      show orO (lastVal (.mainT k) ((WT.reT j0 k0, c) :: X)) (s.top k) =
        orO (lastVal (.mainT k) X) ((writeT s (.reT j0 k0) c).top k)
      rw [lastVal_cons_ne _ _ _ _ (by simp)]
      rfl
    · have hpc : hasPI ((WT.reT j0 k0, c) :: X) = hasPI X := by
        rw [hasPI_cons]; rfl
      have hb : (fun k => orO (lastVal (.piT k) ((WT.reT j0 k0, c) :: X))
            ((s.personal_information.getD emptyPMap) k)) =
          (fun k => orO (lastVal (.piT k) X) ((s.personal_information.getD emptyPMap) k)) := by
        funext k
        rw [lastVal_cons_ne _ _ _ _ (by simp)]
      show (if hasPI ((WT.reT j0 k0, c) :: X) then _ else _) = (if hasPI X then _ else _)
      rw [hpc, hb]
      rfl
    · show s.research_experience.map _ =
        ((writeT s (.reT j0 k0) c).research_experience).map _
      rw [writeT, Option.map_map]
      refine omap_congr ?_ s.research_experience
      intro re
      refine REx.ext_projections ?_ rfl
      show re.projects.map _ = ((re.projects.map _).map _)
      rw [Option.map_map]
      refine omap_congr ?_ re.projects
      intro ps
      show ps.mapIdx _ = (List.modify (fun pr => updPMap pr k0 c) j0 ps).mapIdx _
      rw [mapIdx_modify]
      refine mapIdx_congr_fun ?_ ps
      intro i pr
      funext k
      rw [lastVal_cons, orO_assoc]
      by_cases hj : j0 = i
      · subst hj
        rw [if_pos rfl]
        refine congrArg (orO (lastVal (.reT j0 k) X)) ?_
        by_cases hk : k = k0
        · subst hk; simp [updPMap, orO]
        · simp only [WT.reT.injEq, true_and, if_neg (Ne.symm hk), orO, updPMap, if_neg hk]
      · rw [if_neg hj]
        refine congrArg (orO (lastVal (.reT i k) X)) ?_
        have : (WT.reT j0 k0 = WT.reT i k) = False := by
          simp [hj]
        rw [if_neg (by simp [hj])]
        rfl
    · refine omap_congr ?_ s.work_experience
      intro ws
      refine mapIdx_congr_fun ?_ ws
      intro i pr
      funext k
      rw [lastVal_cons_ne _ _ _ _ (by simp)]
  | weT j0 k0 =>
    refine Student.ext_fields ?_ rfl ?_ ?_ ?_
    · funext k
      show orO (lastVal (.mainT k) ((WT.weT j0 k0, c) :: X)) (s.top k) =
        orO (lastVal (.mainT k) X) ((writeT s (.weT j0 k0) c).top k)
      rw [lastVal_cons_ne _ _ _ _ (by simp)]
      rfl
    · have hpc : hasPI ((WT.weT j0 k0, c) :: X) = hasPI X := by
        rw [hasPI_cons]; rfl
      have hb : (fun k => orO (lastVal (.piT k) ((WT.weT j0 k0, c) :: X))
            ((s.personal_information.getD emptyPMap) k)) =
          (fun k => orO (lastVal (.piT k) X) ((s.personal_information.getD emptyPMap) k)) := by
        funext k
        rw [lastVal_cons_ne _ _ _ _ (by simp)]
      show (if hasPI ((WT.weT j0 k0, c) :: X) then _ else _) = (if hasPI X then _ else _)
      rw [hpc, hb]
      rfl
    · refine omap_congr ?_ s.research_experience
      intro re
      refine REx.ext_projections ?_ rfl
      refine omap_congr ?_ re.projects
      intro ps
      refine mapIdx_congr_fun ?_ ps
      intro i pr
      funext k
      rw [lastVal_cons_ne _ _ _ _ (by simp)]
    · show s.work_experience.map _ = ((writeT s (.weT j0 k0) c).work_experience).map _
      rw [writeT, Option.map_map]
      refine omap_congr ?_ s.work_experience
      intro ws
      show ws.mapIdx _ = (List.modify (fun pr => updPMap pr k0 c) j0 ws).mapIdx _
      rw [mapIdx_modify]
      refine mapIdx_congr_fun ?_ ws
      intro i pr
      funext k
      rw [lastVal_cons, orO_assoc]
      by_cases hj : j0 = i
      · subst hj
        rw [if_pos rfl]
        refine congrArg (orO (lastVal (.weT j0 k) X)) ?_
        by_cases hk : k = k0
        · subst hk; simp [updPMap, orO]
        · simp only [WT.weT.injEq, true_and, if_neg (Ne.symm hk), orO, updPMap, if_neg hk]
      · rw [if_neg hj]
        refine congrArg (orO (lastVal (.weT i k) X)) ?_
        rw [if_neg (by simp [hj])]
        rfl

theorem foldWrites_eq_applyOps (X : List (WT × String)) : ∀ s : Student,
    foldWrites s X = applyOps X s := by
  induction X with
  | nil => intro s; rw [applyOps_nil]; rfl
  | cons e X ih =>
    intro s
    obtain ⟨t, c⟩ := e
    have h1 : foldWrites s ((t, c) :: X) = foldWrites (writeT s t c) X := rfl
    rw [h1, ih, applyOps_cons]

theorem foldWrites_self_append (s : Student) (X : List (WT × String)) :
    foldWrites s (X ++ X) = foldWrites s X := by
  rw [foldWrites_eq_applyOps, foldWrites_eq_applyOps]
  show applyOps (X ++ X) s = applyOps X s
  refine Student.ext_fields ?_ rfl ?_ ?_ ?_
  · funext k
    show orO (lastVal (.mainT k) (X ++ X)) (s.top k) = orO (lastVal (.mainT k) X) (s.top k)
    rw [lastVal_self_append]
  · have hb : (fun k => orO (lastVal (.piT k) (X ++ X))
          ((s.personal_information.getD emptyPMap) k)) =
        (fun k => orO (lastVal (.piT k) X) ((s.personal_information.getD emptyPMap) k)) := by
      funext k
      rw [lastVal_self_append]
    simp only [applyOps]
    rw [hasPI_self_append, hb]
  · refine omap_congr ?_ s.research_experience
    intro re
    refine REx.ext_projections ?_ rfl
    refine omap_congr ?_ re.projects
    intro ps
    refine mapIdx_congr_fun ?_ ps
    intro i pr
    funext k
    rw [lastVal_self_append]
  · refine omap_congr ?_ s.work_experience
    intro ws
    refine mapIdx_congr_fun ?_ ws
    intro i pr
    funext k
    rw [lastVal_self_append]

/-! ### Idempotence of consolidation -/

theorem foldWrites_shape (ops : List (WT × String)) : ∀ s : Student,
    (foldWrites s ops).shape = s.shape := by
  induction ops with
  | nil => intro s; rfl
  | cons e ops ih =>
    intro s
    have h1 : foldWrites s (e :: ops) = foldWrites (writeT s e.1 e.2) ops := rfl
    rw [h1, ih, writeT_shape]

theorem foldWrites_append (s : Student) (A B : List (WT × String)) :
    foldWrites s (A ++ B) = foldWrites (foldWrites s A) B :=
  List.foldl_append _ _ _ _

/-- Claim C2: consolidation is idempotent.  If consolidating `ws` against the
stored record `st` succeeds and persists `st1` with summary `sm`, then
re-running consolidation with the same wrapper list against the stored state
`st1` persists exactly `st1` again, with the same summary. -/
theorem consolidate_idempotent (st st1 : Student) (ws : List Wrapper) (sm : Summary)
    (h : consolidate_extraction_results_flow st ws = some (st1, sm)) :
    consolidate_extraction_results_flow st1 ws = some (st1, sm) := by
  have hnr : ∀ w ∈ ws, fireOfW st.shape w ≠ none := by
    by_contra hc
    push_neg at hc
    obtain ⟨w, hm, hw⟩ := hc
    unfold consolidate_extraction_results_flow at h
    rw [foldl_step_raise ws st 0 0 0 ⟨w, hm, hw⟩] at h
    cases h
  unfold consolidate_extraction_results_flow at h
  rw [foldl_step_eq ws st 0 0 0 hnr] at h
  simp only [Option.map_some', Option.some.injEq, Prod.mk.injEq] at h
  obtain ⟨hst, hsm⟩ := h
  have hst1 : st1 = foldWrites st (firedWrites st.shape ws ++ [statusWrite]) := by
    rw [foldWrites_append]
    exact hst.symm
  have hshape : st1.shape = st.shape := by
    rw [hst1, foldWrites_shape]
  have hnr2 : ∀ w ∈ ws, fireOfW st1.shape w ≠ none := by
    rw [hshape]; exact hnr
  unfold consolidate_extraction_results_flow
  rw [foldl_step_eq ws st1 0 0 0 hnr2]
  simp only [Option.map_some', Option.some.injEq, Prod.mk.injEq]
  constructor
  · have hw2 : ({ (foldWrites st1 (firedWrites st1.shape ws)) with
        top := updStr (foldWrites st1 (firedWrites st1.shape ws)).top
          "application_status" "Evaluation in-progress" } : Student) =
        foldWrites st1 (firedWrites st1.shape ws ++ [statusWrite]) := by
      rw [foldWrites_append]; rfl
    rw [hw2, hshape, hst1, ← foldWrites_append]
    exact foldWrites_self_append st _
  · exact hsm

theorem consolidate_idempotent_witness :
    consolidate_extraction_results_flow stEmpty [mainSuccess "transcript_content" "textA"] =
        some (stOneWrite, ⟨1, 0, 0, 1⟩) ∧
      consolidate_extraction_results_flow stOneWrite [mainSuccess "transcript_content" "textA"] =
        some (stOneWrite, ⟨1, 0, 0, 1⟩) :=
  ⟨rfl, consolidate_idempotent stEmpty stOneWrite [mainSuccess "transcript_content" "textA"]
    ⟨1, 0, 0, 1⟩ rfl⟩

/-- Claim C1 (counterexample): the unrestricted order-independence claim is
false.  Against the empty record, consolidating two successful outcomes that
write different text to the same content field in the two possible orders
produces different final records (the last write wins), even though the two
outcome lists are permutations of each other. -/
theorem consolidate_order_dependence_cex :
    consolidate_extraction_results_flow stEmpty
        [mainSuccess "transcript_content" "textA", mainSuccess "transcript_content" "textB"] ≠
      consolidate_extraction_results_flow stEmpty
        [mainSuccess "transcript_content" "textB", mainSuccess "transcript_content" "textA"] := by
  intro h
  have h1 := congrArg
    (Option.map (fun p : Student × Summary => p.1.top "transcript_content")) h
  have e1 : Option.map (fun p : Student × Summary => p.1.top "transcript_content")
      (consolidate_extraction_results_flow stEmpty
        [mainSuccess "transcript_content" "textA", mainSuccess "transcript_content" "textB"]) =
      some (some "textB") := rfl
  have e2 : Option.map (fun p : Student × Summary => p.1.top "transcript_content")
      (consolidate_extraction_results_flow stEmpty
        [mainSuccess "transcript_content" "textB", mainSuccess "transcript_content" "textA"]) =
      some (some "textA") := rfl
  rw [e1, e2] at h1
  exact absurd h1 (by decide)

theorem consolidate_order_independent_witness :
    ([mainSuccess "transcript_content" "textA", mainSuccess "sop_content" "textB"].Perm
        [mainSuccess "sop_content" "textB", mainSuccess "transcript_content" "textA"]) ∧
      consolidate_extraction_results_flow stEmpty
          [mainSuccess "transcript_content" "textA", mainSuccess "sop_content" "textB"] =
        consolidate_extraction_results_flow stEmpty
          [mainSuccess "sop_content" "textB", mainSuccess "transcript_content" "textA"] :=
  ⟨by decide,
   consolidate_order_independent stEmpty
     [mainSuccess "transcript_content" "textA", mainSuccess "sop_content" "textB"]
     [mainSuccess "sop_content" "textB", mainSuccess "transcript_content" "textA"]
     (by decide) (by decide)⟩

/-- Claim C5 (counterexample): in the sequential merge stage
(`document_extraction_flow` / `_extract_main_documents`), an outcome that
fails extraction does mutate the record: the helper returns the empty string
for a failed extraction and the caller stores it, so `transcript_content`
is set to `""` (it was absent before) while `transcript` is tallied failed. -/
theorem failed_outcome_mutates_in_sequential_flow :
    (_extract_main_documents ocrAlwaysFails stC5 ⟨[], [], []⟩).1.top "transcript_content" =
        some "" ∧
      (_extract_main_documents ocrAlwaysFails stC5 ⟨[], [], []⟩).2.failed = ["transcript"] ∧
      stC5.top "transcript_content" = none := by
  refine ⟨rfl, by decide, rfl⟩

/-- Claim C5 (amended): in the consolidator, an outcome with
`status = "failed"` increments the failure tally only and leaves the record
untouched: the content field is not set to an error string or any other
value.  (In the sequential `document_extraction_flow`, by contrast, a failed
extraction stores the empty string, see
`failed_outcome_mutates_in_sequential_flow`.) -/
theorem consolidator_failed_outcome_no_mutation (st : Student) (a b c : Nat)
    (w : Wrapper) (h : wStatus w = some "failed") :
    consolidateStep (some ⟨st, a, b, c⟩) w = some ⟨st, a, b + 1, c⟩ := by
  have h' : (w.getD emptyResult).status = some "failed" := h
  simp [consolidateStep, h']

theorem consolidator_failed_outcome_no_mutation_witness :
    wStatus (some ⟨some "failed", emptyDoc, ""⟩) = some "failed" ∧
      consolidateStep (some ⟨stEmpty, 0, 0, 0⟩) (some ⟨some "failed", emptyDoc, ""⟩) =
        some ⟨stEmpty, 0, 0 + 1, 0⟩ :=
  ⟨rfl, consolidator_failed_outcome_no_mutation stEmpty 0 0 0
    (some ⟨some "failed", emptyDoc, ""⟩) rfl⟩

/-! ### Claim C3: writes to stale list indices are dropped -/

/-- Claim C3: for a successful nested outcome whose captured `parentPath`
index is at or beyond the current length of the target list (the list shrank
between resolution and consolidation), the consolidator drops the write
without raising: the record is returned unchanged (so the list's element
count is unchanged), the outcome is still tallied on the success side, and
the failure tally is untouched.  Stated for both ordered lists
(`research_experience.projects` and `work_experience`). -/
theorem consolidate_drops_stale_index_write :
    (∀ (st : Student) (re : REx) (ps : List PMap) (d : PyDoc) (content : String)
        (a b c : Nat) (i : Int),
      st.research_experience = some re → re.projects = some ps →
      d.document_type = some "nested" →
      strContains d.parent_path.data "personal_information".data = false →
      strContains d.parent_path.data "research_experience.projects".data = true →
      3 ≤ (splitDot d.parent_path.data).length →
      pyInt ((splitDot d.parent_path.data).getD 2 []) = some i →
      (ps.length : Int) ≤ i →
      consolidateStep (some ⟨st, a, b, c⟩) (some ⟨some "success", d, content⟩) =
        some ⟨st, a + 1, b, c⟩) ∧
    (∀ (st : Student) (ws : List PMap) (d : PyDoc) (content : String)
        (a b c : Nat) (i : Int),
      st.work_experience = some ws →
      d.document_type = some "nested" →
      strContains d.parent_path.data "personal_information".data = false →
      strContains d.parent_path.data "research_experience.projects".data = false →
      strContains d.parent_path.data "work_experience".data = true →
      2 ≤ (splitDot d.parent_path.data).length →
      pyInt ((splitDot d.parent_path.data).getD 1 []) = some i →
      (ws.length : Int) ≤ i →
      consolidateStep (some ⟨st, a, b, c⟩) (some ⟨some "success", d, content⟩) =
        some ⟨st, a + 1, b, c⟩) := by
  constructor
  · intro st re ps d content a b c i hre hps hty hpi hrep hlen hint hidx
    have hplan : wplan d = .wRE i d.content_key := by
      simp only [List.getD, List.get?_eq_getElem?] at hint
      simp [wplan, hty, hpi, hrep, hlen, hint]
    show (execPlan st (wplan d) content).map
        (fun stu => (⟨stu, a + 1, b, c⟩ : CState)) = some ⟨st, a + 1, b, c⟩
    rw [hplan, execPlan]
    simp only [hre, hps]
    rw [if_neg (not_lt.mpr hidx)]
    rfl
  · intro st ws d content a b c i hwe hty hpi hrep hwep hlen hint hidx
    have hplan : wplan d = .wWE i d.content_key := by
      simp only [List.getD, List.get?_eq_getElem?] at hint
      simp [wplan, hty, hpi, hrep, hwep, hlen, hint]
    show (execPlan st (wplan d) content).map
        (fun stu => (⟨stu, a + 1, b, c⟩ : CState)) = some ⟨st, a + 1, b, c⟩
    rw [hplan, execPlan]
    simp only [hwe]
    rw [if_neg (not_lt.mpr hidx)]
    rfl

theorem consolidate_drops_stale_index_write_witness :
    consolidateStep (some ⟨stC3, 0, 0, 0⟩) (some ⟨some "success", dC3re, "text"⟩) =
        some ⟨stC3, 0 + 1, 0, 0⟩ ∧
      consolidateStep (some ⟨stC3, 0, 0, 0⟩) (some ⟨some "success", dC3we, "text"⟩) =
        some ⟨stC3, 0 + 1, 0, 0⟩ :=
  ⟨consolidate_drops_stale_index_write.1 stC3 ⟨some [emptyPMap, emptyPMap], emptyPMap⟩
      [emptyPMap, emptyPMap] dC3re "text" 0 0 0 2 rfl rfl rfl (by decide) (by decide)
      (by decide) (by decide) (by decide),
   consolidate_drops_stale_index_write.2 stC3 [emptyPMap, emptyPMap] dC3we "text"
      0 0 0 2 rfl rfl (by decide) (by decide) (by decide) (by decide) (by decide)
      (by decide)⟩

/-! ### Claim C10: summary invariant of consolidation -/

theorem cnt_sum (ws : List Wrapper) : cntS ws + cntF ws + cntK ws = ws.length := by
  induction ws with
  | nil => rfl
  | cons w ws ih =>
    rw [cntS_cons, cntF_cons, cntK_cons]
    have h1 : deltaS w + deltaF w + deltaK w = 1 := by
      rcases hst : wStatus w with _ | sv
      · simp [deltaS, deltaF, deltaK, hst]
      · by_cases hsv : sv = "success"
        · subst hsv; simp [deltaS, deltaF, deltaK, hst]
        · by_cases hsf : sv = "failed"
          · subst hsf; simp [deltaS, deltaF, deltaK, hst]
          · simp [deltaS, deltaF, deltaK, hst, hsv, hsf]
    simp only [List.length_cons]
    omega

/-- Claim C10: whenever consolidation returns a summary, its counts satisfy
`successful + failed + skipped = total = length of the input list`, and every
wrapper whose status is neither `"success"` nor `"failed"` — including a
wrapper with a missing or malformed payload (`none`, whose unwrapped status
is `none`) — is tallied as skipped by its loop iteration without raising. -/
theorem consolidate_summary_invariant :
    (∀ (st : Student) (ws : List Wrapper) (st1 : Student) (sm : Summary),
      consolidate_extraction_results_flow st ws = some (st1, sm) →
      sm.successful + sm.failed + sm.skipped = sm.total ∧
      sm.total = ws.length ∧
      sm.skipped = ws.countP
        (fun w => !(wStatus w = some "success") && !(wStatus w = some "failed"))) ∧
    (∀ (st : Student) (a b c : Nat) (w : Wrapper),
      ¬(wStatus w = some "success") → ¬(wStatus w = some "failed") →
      consolidateStep (some ⟨st, a, b, c⟩) w = some ⟨st, a, b, c + 1⟩) := by
  constructor
  · intro st ws st1 sm h
    have hnr : ∀ w ∈ ws, fireOfW st.shape w ≠ none := by
      by_contra hc
      push_neg at hc
      obtain ⟨w, hm, hw⟩ := hc
      unfold consolidate_extraction_results_flow at h
      rw [foldl_step_raise ws st 0 0 0 ⟨w, hm, hw⟩] at h
      cases h
    unfold consolidate_extraction_results_flow at h
    rw [foldl_step_eq ws st 0 0 0 hnr] at h
    simp only [Option.map_some', Option.some.injEq, Prod.mk.injEq] at h
    obtain ⟨_, hsm⟩ := h
    subst hsm
    refine ⟨?_, rfl, ?_⟩
    · show 0 + cntS ws + (0 + cntF ws) + (0 + cntK ws) = ws.length
      simp only [Nat.zero_add]
      exact cnt_sum ws
    · show 0 + cntK ws = _
      simp only [Nat.zero_add]
      rfl
  · intro st a b c w h1 h2
    rcases hst : wStatus w with _ | sv
    · have h' : (w.getD emptyResult).status = none := hst
      simp [consolidateStep, h']
    · have h' : (w.getD emptyResult).status = some sv := hst
      have hv1 : sv ≠ "success" := by
        rw [hst] at h1; simpa using h1
      have hv2 : sv ≠ "failed" := by
        rw [hst] at h2; simpa using h2
      simp [consolidateStep, h', hv1, hv2]

theorem consolidate_summary_invariant_witness :
    ((⟨0, 0, 1, 1⟩ : Summary).successful + (⟨0, 0, 1, 1⟩ : Summary).failed +
        (⟨0, 0, 1, 1⟩ : Summary).skipped = (⟨0, 0, 1, 1⟩ : Summary).total ∧
      (⟨0, 0, 1, 1⟩ : Summary).total = [(none : Wrapper)].length ∧
      (⟨0, 0, 1, 1⟩ : Summary).skipped = [(none : Wrapper)].countP
        (fun w => !(wStatus w = some "success") && !(wStatus w = some "failed"))) ∧
      consolidateStep (some ⟨stEmpty, 0, 0, 0⟩) none = some ⟨stEmpty, 0, 0, 0 + 1⟩ :=
  ⟨consolidate_summary_invariant.1 stEmpty [none] stStatusOnly ⟨0, 0, 1, 1⟩ rfl,
   consolidate_summary_invariant.2 stEmpty 0 0 0 none (by decide) (by decide)⟩

/-- Claim C4 (counterexample): a failing evaluation stage whose only fault
is the evaluations-table save (line 853) has already persisted the advanced
status `"Generating report"` (line 850) — the status is advanced, not
rolled back, on that failure.  A failing report stage (upload failure)
returns failure without writing any status at all, leaving the stored
status on the state that triggered the failure rather than rolling it back
to a retryable predecessor such as `"On-hold"`. -/
theorem status_not_rolled_back_cex :
    evaluate_application_flow true true true true false =
      (false, some "Generating report") ∧
      generate_report_flow true true false true true true = (false, none) := by
  decide

/-- Claim C4 (amended): each stage stores only its own documented status
values, and advances the status only once all work preceding that write has
succeeded — but the advance is not tied to overall stage success.
`process_application_flow` is the only stage that rolls back: it stores
`"On-hold"` exactly on a state-machine start failure.
`evaluate_application_flow` persists `"Generating report"` before saving
the evaluation results, and the stage fails with the advanced status
already stored precisely when that results save is the failing step (the
iff conjunct).  The report and extraction stages store no status at all on
failure. -/
theorem status_write_discipline :
    (∀ f s h p : Bool,
      ((process_application_flow f s h p).2 = none ∨
        (process_application_flow f s h p).2 = some "On-hold" ∨
        (process_application_flow f s h p).2 = some "Application processing") ∧
      ((process_application_flow f s h p).1 = true →
        (process_application_flow f s h p).2 = some "Application processing") ∧
      ((process_application_flow f s h p).2 = some "On-hold" →
        (process_application_flow f s h p).1 = false ∧ s = false)) ∧
    (∀ f a r sp rp : Bool,
      ((evaluate_application_flow f a r sp rp).1 = true →
        (evaluate_application_flow f a r sp rp).2 = some "Generating report") ∧
      ((evaluate_application_flow f a r sp rp).2 ≠ none →
        (evaluate_application_flow f a r sp rp).2 = some "Generating report" ∧
          f = true ∧ a = true ∧ r = true ∧ sp = true) ∧
      (((evaluate_application_flow f a r sp rp).1 = false ∧
          (evaluate_application_flow f a r sp rp).2 ≠ none) ↔
        (f = true ∧ a = true ∧ r = true ∧ sp = true ∧ rp = false))) ∧
    (∀ e c u rp g sp : Bool,
      ((generate_report_flow e c u rp g sp).1 = false →
        (generate_report_flow e c u rp g sp).2 = none) ∧
      ((generate_report_flow e c u rp g sp).1 = true →
        (generate_report_flow e c u rp g sp).2 = none ∨
        (generate_report_flow e c u rp g sp).2 = some "Processing complete")) ∧
    (∀ f p : Bool,
      ((document_extraction_flow_status f p).1 = false →
        (document_extraction_flow_status f p).2 = none) ∧
      ((document_extraction_flow_status f p).1 = true →
        (document_extraction_flow_status f p).2 = some "Evaluation in-progress")) := by
  refine ⟨?_, ?_, ?_, ?_⟩
  · intro f s h p; cases f <;> cases s <;> cases h <;> cases p <;> decide
  · intro f a r sp rp
    cases f <;> cases a <;> cases r <;> cases sp <;> cases rp <;> decide
  · intro e c u rp g sp
    cases e <;> cases c <;> cases u <;> cases rp <;> cases g <;> cases sp <;> decide
  · intro f p; cases f <;> cases p <;> decide

theorem StatisticalCalculator.mean_const (l : List ℚ) (x : ℚ) (hl : l ≠ []) (h : ∀ y ∈ l, y = x) :
    mean l = x := by
  have hs : l.sum = (l.length : ℚ) * x := by
    rw [List.sum_eq_card_nsmul l x h]
    simp [nsmul_eq_mul]
  have hn : (l.length : ℚ) ≠ 0 := by
    have : l.length ≠ 0 := fun h0 => hl (List.length_eq_zero.mp h0)
    exact_mod_cast this
  rw [mean, hs]
  field_simp

theorem StatisticalCalculator.sampleVariance_const (l : List ℚ) (hl : l ≠ [])
    (h : ∀ x ∈ l, ∀ y ∈ l, x = y) : sampleVariance l = 0 := by
  obtain ⟨a, ha⟩ := List.exists_mem_of_ne_nil l hl
  have hall : ∀ y ∈ l, y = a := fun y hy => h y hy a ha
  have hm : mean l = a := mean_const l a hl hall
  have hz : (l.map (fun x => (x - mean l) ^ 2)).sum = 0 := by
    apply List.sum_eq_zero
    intro x hx
    obtain ⟨y, hy, rfl⟩ := List.mem_map.mp hx
    rw [hall y hy, hm]
    ring
  rw [sampleVariance, hz, zero_div]

theorem StatisticalCalculator.list_sum_pos_of_mem {l : List ℚ} {x : ℚ} (hx : x ∈ l) (hpos : 0 < x)
    (hnn : ∀ y ∈ l, 0 ≤ y) : 0 < l.sum := by
  induction l with
  | nil => cases hx
  | cons a l ih =>
    rw [List.sum_cons]
    rcases List.mem_cons.mp hx with rfl | hx2
    · exact add_pos_of_pos_of_nonneg hpos
        (List.sum_nonneg fun y hy => hnn y (List.mem_cons_of_mem _ hy))
    · exact add_pos_of_nonneg_of_pos (hnn a (List.mem_cons_self a l))
        (ih hx2 fun y hy => hnn y (List.mem_cons_of_mem a hy))

theorem StatisticalCalculator.sampleVariance_pos (l : List ℚ) (h2 : 2 ≤ l.length)
    (hne : ¬ ∀ x ∈ l, ∀ y ∈ l, x = y) : 0 < sampleVariance l := by
  push_neg at hne
  obtain ⟨x, hx, y, hy, hxy⟩ := hne
  have hz : ∃ z ∈ l, z ≠ mean l := by
    by_cases hxm : x = mean l
    · exact ⟨y, hy, fun hym => hxy (by rw [hxm, hym])⟩
    · exact ⟨x, hx, hxm⟩
  obtain ⟨z, hzl, hzm⟩ := hz
  have hmem : (z - mean l) ^ 2 ∈ l.map (fun x => (x - mean l) ^ 2) :=
    List.mem_map_of_mem _ hzl
  have hpos : 0 < (z - mean l) ^ 2 :=
    lt_of_le_of_ne (sq_nonneg _) (Ne.symm (pow_ne_zero 2 (sub_ne_zero.mpr hzm)))
  have hsum : 0 < (l.map (fun x => (x - mean l) ^ 2)).sum :=
    list_sum_pos_of_mem hmem hpos (by
      intro w hw
      obtain ⟨u, _, rfl⟩ := List.mem_map.mp hw
      exact sq_nonneg _)
  have hden : 0 < (l.length : ℚ) - 1 := by
    have : (2 : ℚ) ≤ (l.length : ℚ) := by exact_mod_cast h2
    linarith
  exact div_pos hsum hden

/-- Claim C8: for every value and every sample with at least 2 valid
(non-null) entries, `calculate_percentile` returns the strict percentile rank
`100 * |{x ∈ valid : x < value}| / |valid|` and every returned value lies in
`[0, 100]`; for every sample with fewer than 2 valid entries it returns
`None`. -/
theorem StatisticalCalculator.calculate_percentile_spec (v : ℚ) (all_values : List (Option ℚ)) :
    (2 ≤ (all_values.filterMap id).length →
      calculate_percentile (some v) all_values =
        some (100 * (((all_values.filterMap id).countP (fun x => decide (x < v))) : ℚ) /
          (((all_values.filterMap id).length : ℚ))) ∧
      (∀ p : ℚ, calculate_percentile (some v) all_values = some p →
        0 ≤ p ∧ p ≤ 100)) ∧
    ((all_values.filterMap id).length < 2 →
      calculate_percentile (some v) all_values = none) := by
  constructor
  · intro h2
    have hne : all_values ≠ [] := by
      intro h0
      rw [h0] at h2
      simp at h2
    have hlen : ¬ all_values.length < 2 :=
      not_lt.mpr (le_trans h2 (List.length_filterMap_le id all_values))
    have hvlen : ¬ (all_values.filterMap id).length < 2 := not_lt.mpr h2
    have hn0 : (0 : ℚ) < ((all_values.filterMap id).length : ℚ) := by
      have : 0 < (all_values.filterMap id).length := lt_of_lt_of_le (by norm_num) h2
      exact_mod_cast this
    have hc : ((all_values.filterMap id).countP (fun x => decide (x < v)) : ℚ) ≤
        ((all_values.filterMap id).length : ℚ) := by
      exact_mod_cast List.countP_le_length _
    have hcnn : (0 : ℚ) ≤ ((all_values.filterMap id).countP (fun x => decide (x < v)) : ℚ) := by
      positivity
    have hp0 : (0 : ℚ) ≤ 100 * ((all_values.filterMap id).countP (fun x => decide (x < v)) : ℚ) /
        (((all_values.filterMap id).length : ℚ)) := by
      positivity
    have hp100 : 100 * ((all_values.filterMap id).countP (fun x => decide (x < v)) : ℚ) /
        (((all_values.filterMap id).length : ℚ)) ≤ 100 := by
      rw [div_le_iff₀ hn0]
      nlinarith
    have heq : calculate_percentile (some v) all_values =
        some (max 0 (min 100 (100 * (((all_values.filterMap id).countP
          (fun x => decide (x < v))) : ℚ) / (((all_values.filterMap id).length : ℚ))))) := by
      rw [calculate_percentile]
      rw [if_neg hne]
      rw [if_neg hlen]
      simp only [if_neg hvlen]
    constructor
    · rw [heq]
      refine congrArg some ?_
      rw [min_eq_right hp100, max_eq_right hp0]
    · intro p hp
      rw [heq] at hp
      have hp2 := Option.some.inj hp
      rw [← hp2]
      constructor
      · exact le_max_left 0 _
      · exact max_le (by norm_num) (min_le_left _ _)
  · intro h2
    rw [calculate_percentile]
    by_cases hne : all_values = []
    · rw [if_pos hne]
    · rw [if_neg hne]
      by_cases hlen : all_values.length < 2
      · simp only [if_pos hlen]
      · simp only [if_neg hlen, if_pos h2]

/-- Claim C9: `calculate_z_score` returns `None` for every sample with fewer
than 2 valid entries; returns `0` whenever the valid entries (at least 2)
are all equal (standard deviation zero); and otherwise returns
`(value - mean) / stdev` where `stdev` is the square root of the sample
variance of the valid entries. -/
theorem StatisticalCalculator.calculate_z_score_spec (v : ℚ) (all_values : List (Option ℚ)) :
    ((all_values.filterMap id).length < 2 →
      calculate_z_score (some v) all_values = none) ∧
    (2 ≤ (all_values.filterMap id).length →
      (∀ x ∈ all_values.filterMap id, ∀ y ∈ all_values.filterMap id, x = y) →
      calculate_z_score (some v) all_values = some 0) ∧
    (2 ≤ (all_values.filterMap id).length →
      ¬ (∀ x ∈ all_values.filterMap id, ∀ y ∈ all_values.filterMap id, x = y) →
      calculate_z_score (some v) all_values =
        some (((v - mean (all_values.filterMap id) : ℚ) : ℝ) /
          Real.sqrt ((sampleVariance (all_values.filterMap id) : ℚ) : ℝ))) := by
  refine ⟨?_, ?_, ?_⟩
  · intro h2
    rw [calculate_z_score]
    by_cases hne : all_values = []
    · rw [if_pos hne]
    · rw [if_neg hne]
      by_cases hlen : all_values.length < 2
      · simp only [if_pos hlen]
      · simp only [if_neg hlen, if_pos h2]
  · intro h2 hall
    have hne : all_values ≠ [] := by
      intro h0
      rw [h0] at h2
      simp at h2
    have hlen : ¬ all_values.length < 2 :=
      not_lt.mpr (le_trans h2 (List.length_filterMap_le id all_values))
    have hvlen : ¬ (all_values.filterMap id).length < 2 := not_lt.mpr h2
    have hvne : all_values.filterMap id ≠ [] := by
      intro h0
      rw [h0] at h2
      simp at h2
    have hvar : sampleVariance (all_values.filterMap id) = 0 :=
      sampleVariance_const _ hvne hall
    have hsd : Real.sqrt ((sampleVariance (all_values.filterMap id) : ℚ) : ℝ) = 0 := by
      rw [hvar]
      norm_num
    rw [calculate_z_score]
    rw [if_neg hne, if_neg hlen]
    simp only [if_neg hvlen]
    rw [if_pos hsd]
  · intro h2 hne2
    have hne : all_values ≠ [] := by
      intro h0
      rw [h0] at h2
      simp at h2
    have hlen : ¬ all_values.length < 2 :=
      not_lt.mpr (le_trans h2 (List.length_filterMap_le id all_values))
    have hvlen : ¬ (all_values.filterMap id).length < 2 := not_lt.mpr h2
    have hvar : 0 < sampleVariance (all_values.filterMap id) :=
      sampleVariance_pos _ h2 hne2
    have hsd : Real.sqrt ((sampleVariance (all_values.filterMap id) : ℚ) : ℝ) ≠ 0 := by
      have : (0 : ℝ) < ((sampleVariance (all_values.filterMap id) : ℚ) : ℝ) := by
        exact_mod_cast hvar
      exact ne_of_gt (Real.sqrt_pos.mpr this)
    rw [calculate_z_score]
    rw [if_neg hne, if_neg hlen]
    simp only [if_neg hvlen]
    rw [if_neg hsd]

theorem StatisticalCalculator.calculate_percentile_spec_witness :
    2 ≤ (([some 0, some 2] : List (Option ℚ)).filterMap id).length ∧
      calculate_percentile (some 1) [some 0, some 2] =
        some (100 * ((([some 0, some 2] : List (Option ℚ)).filterMap id).countP
          (fun x => decide (x < 1)) : ℚ) /
          ((([some 0, some 2] : List (Option ℚ)).filterMap id).length : ℚ)) :=
  ⟨by decide, (calculate_percentile_spec 1 [some 0, some 2]).1 (by decide) |>.1⟩

theorem StatisticalCalculator.calculate_z_score_spec_witness :
    2 ≤ (([some 2, some 2] : List (Option ℚ)).filterMap id).length ∧
      (∀ x ∈ ([some 2, some 2] : List (Option ℚ)).filterMap id,
        ∀ y ∈ ([some 2, some 2] : List (Option ℚ)).filterMap id, x = y) ∧
      calculate_z_score (some 1) [some 2, some 2] = some 0 :=
  ⟨by decide, by decide,
   (calculate_z_score_spec 1 [some 2, some 2]).2.1 (by decide) (by decide)⟩

theorem takeWhile_append_of (p : Char → Bool) (b : List Char)
    (hb : ∀ x ∈ b, p x = true) (c : Char) (cs : List Char) (hc : p c = false) :
    (b ++ c :: cs).takeWhile p = b ∧ (b ++ c :: cs).dropWhile p = c :: cs := by
  induction b with
  | nil => simp [List.takeWhile_cons, List.dropWhile_cons, hc]
  | cons a b ih =>
    have ha : p a = true := hb a (by simp)
    have ih2 := ih (fun x hx => hb x (by simp [hx]))
    constructor
    · simp [List.takeWhile_cons, ha, ih2.1]
    · simp [List.dropWhile_cons, ha, ih2.2]

theorem dropWhile_head_not (p : Char → Bool) (l : List Char) (c : Char)
    (t : List Char) (h : l.dropWhile p = c :: t) : p c = false := by
  induction l with
  | nil => simp at h
  | cons a l ih =>
    rw [List.dropWhile_cons] at h
    by_cases hpa : p a = true
    · rw [if_pos hpa] at h
      exact ih h
    · rw [if_neg hpa] at h
      cases h
      simpa using hpa

theorem parse_s3_core_decomp (b k : List Char) (hb : b ≠ [])
    (hslash : '/' ∈ b → False) (hk : k ≠ []) :
    parse_s3_core ("s3://".data ++ (b ++ '/' :: k)) = (some b, some k) := by
  have hmem : ∀ x ∈ b, (fun ch => !(ch = '/')) x = true := by
    intro x hx
    simp only [Bool.not_eq_true']
    rw [decide_eq_false_iff_not]
    intro he
    exact hslash (he ▸ hx)
  have hsp := takeWhile_append_of (fun ch => !(ch = '/')) b hmem '/' k (by simp)
  rw [parse_s3_core]
  rw [if_neg ?hcond]
  case hcond =>
    push_neg
    constructor
    · simp
    · rw [show (5 : Nat) = ("s3://".data).length from rfl, List.take_left]
  rw [show ("s3://".data ++ (b ++ '/' :: k)).drop 5 = b ++ '/' :: k from
    List.drop_left ("s3://".data) (b ++ '/' :: k)]
  rw [if_neg (by simp)]
  simp only [hsp.1, hsp.2]
  rw [if_neg hb, if_neg hk]

theorem checkS3_of_wellFormed {s : String} (h : wellFormedS3 s) : checkS3 s = true := by
  obtain ⟨b, k, hb, hslash, hk, hs⟩ := h
  rw [checkS3, parse_s3_uri, hs, parse_s3_core_decomp b k hb hslash hk]
  simp [truthyC, hb, hk]

theorem wellFormed_of_checkS3 {s : String} (h : checkS3 s = true) : wellFormedS3 s := by
  rw [checkS3, parse_s3_uri] at h
  by_cases h0 : s.data = [] ∨ ¬ (s.data.take 5 = "s3://".data)
  · rw [parse_s3_core, if_pos h0] at h
    simp [truthyC] at h
  · push_neg at h0
    obtain ⟨hne, h1⟩ := h0
    rw [parse_s3_core, if_neg (by push_neg; exact ⟨hne, h1⟩)] at h
    by_cases h2 : s.data.drop 5 = []
    · rw [if_pos h2] at h
      simp [truthyC] at h
    · rw [if_neg h2] at h
      simp only at h
      by_cases hb0 : (s.data.drop 5).takeWhile (fun ch => !(ch = '/')) = []
      · rw [if_pos hb0] at h
        simp [truthyC] at h
      · rw [if_neg hb0] at h
        rcases hrest : (s.data.drop 5).dropWhile (fun ch => !(ch = '/')) with _ | ⟨c, t⟩
        · rw [hrest] at h
          simp [truthyC] at h
        · rw [hrest] at h
          have hkey : (match c :: t with
              | [] => (some [] : Option (List Char))
              | _ :: t => if t = [] then some [] else some t) =
              (if t = [] then some [] else some t) := rfl
          rw [hkey] at h
          by_cases ht : t = []
          · rw [if_pos ht] at h
            simp [truthyC] at h
          · have hc : c = '/' := by
              have hpc := dropWhile_head_not (fun ch => !(ch = '/')) (s.data.drop 5) c t hrest
              simpa using hpc
            refine ⟨(s.data.drop 5).takeWhile (fun ch => !(ch = '/')), t, hb0, ?_, ht, ?_⟩
            · intro hmem
              have := List.mem_takeWhile_imp hmem
              simp at this
            · have e0 : (s.data.drop 5).takeWhile (fun ch => !(ch = '/')) ++ c :: t =
                  s.data.drop 5 := by
                rw [← hrest]
                exact List.takeWhile_append_dropWhile _ _
              rw [hc] at e0
              rw [e0, ← h1]
              exact (List.take_append_drop 5 s.data).symm

/-- Claim C7: `extract_single_document_flow` never raises an unhandled fault:
it always returns with the `True` flag and a typed outcome.  A locator that
does not match the `s3://container/key` scheme, or whose container or key is
empty, yields the `failed` outcome with the descriptive `"Invalid S3 URI"`
error and empty content, for every behaviour of the OCR capability.  When
the locator parses, a non-success capability status yields `failed` with the
capability's error, and an exception raised inside the capability call or
result decoding is converted into a `failed` outcome carrying the fault
description. -/
theorem extract_single_document_flow_spec (ocr : String → String → TOut) (uri : String) :
    ((extract_single_document_flow ocr uri).1 = true) ∧
    (¬ wellFormedS3 uri →
      extract_single_document_flow ocr uri = (true, ⟨"failed", some "Invalid S3 URI", ""⟩)) ∧
    (∀ b k : List Char, parse_s3_uri uri = (some b, some k) → b ≠ [] → k ≠ [] →
      (∀ e, ocr (String.mk b) (String.mk k) = .failedT e →
        extract_single_document_flow ocr uri = (true, ⟨"failed", some e, ""⟩)) ∧
      (∀ m, ocr (String.mk b) (String.mk k) = .raisedT m →
        extract_single_document_flow ocr uri = (true, ⟨"failed", some m, ""⟩)) ∧
      (∀ text, ocr (String.mk b) (String.mk k) = .succeeded text →
        extract_single_document_flow ocr uri = (true, ⟨"success", none, text⟩))) := by
  refine ⟨?_, ?_, ?_⟩
  · simp only [extract_single_document_flow]
    by_cases hbad : (!truthyC (parse_s3_uri uri).1 || !truthyC (parse_s3_uri uri).2) = true
    · rw [if_pos hbad]
    · rw [if_neg hbad]
      cases ocr (String.mk ((parse_s3_uri uri).1.getD []))
          (String.mk ((parse_s3_uri uri).2.getD [])) <;> rfl
  · intro hnw
    have hch : checkS3 uri = false := by
      by_contra hc
      exact hnw (wellFormed_of_checkS3 (eq_true_of_ne_false hc))
    rw [checkS3] at hch
    have hbad : (!truthyC (parse_s3_uri uri).1 || !truthyC (parse_s3_uri uri).2) = true := by
      rcases Bool.and_eq_false_iff.mp hch with hcase | hcase <;> simp [hcase]
    simp only [extract_single_document_flow]
    rw [if_pos hbad]
  · intro b k hp hb hk
    have hgood : (!truthyC (parse_s3_uri uri).1 || !truthyC (parse_s3_uri uri).2) = false := by
      rw [hp]
      simp [truthyC, hb, hk]
    have hbk1 : String.mk ((parse_s3_uri uri).1.getD []) = String.mk b := by
      rw [hp]
      rfl
    have hbk2 : String.mk ((parse_s3_uri uri).2.getD []) = String.mk k := by
      rw [hp]
      rfl
    refine ⟨?_, ?_, ?_⟩
    · intro e he
      simp only [extract_single_document_flow]
      rw [if_neg (by rw [hgood]; simp), hbk1, hbk2, he]
    · intro m hm
      simp only [extract_single_document_flow]
      rw [if_neg (by rw [hgood]; simp), hbk1, hbk2, hm]
    · intro text htext
      simp only [extract_single_document_flow]
      rw [if_neg (by rw [hgood]; simp), hbk1, hbk2, htext]

theorem extract_single_document_flow_spec_witness :
    extract_single_document_flow ocrAlwaysFails "https://bucket/key.pdf" =
      (true, ⟨"failed", some "Invalid S3 URI", ""⟩) :=
  (extract_single_document_flow_spec ocrAlwaysFails "https://bucket/key.pdf").2.1
    (fun h => absurd (checkS3_of_wellFormed h) (by decide))

theorem filterMap_ite {α β : Type} (p : α → Bool) (f : α → β) (l : List α) :
    l.filterMap (fun x => if p x then some (f x) else none) = (l.filter p).map f := by
  induction l with
  | nil => rfl
  | cons a l ih =>
    rw [List.filterMap_cons, List.filter_cons]
    by_cases h : p a = true
    · rw [if_pos h, if_pos h, List.map_cons, ih]
    · rw [if_neg h, if_neg h, ih]

theorem flatMap_congr_mem {α β : Type} {f g : α → List β} (l : List α)
    (h : ∀ a ∈ l, f a = g a) : l.flatMap f = l.flatMap g := by
  induction l with
  | nil => rfl
  | cons a l ih =>
    rw [List.flatMap_cons, List.flatMap_cons, h a (by simp),
      ih (fun x hx => h x (by simp [hx]))]

theorem enumFromL_mem_getElem {α : Type} (l : List α) : ∀ (k i : Nat) (p : α),
    (i, p) ∈ enumFromL k l → k ≤ i ∧ l[i - k]? = some p := by
  induction l with
  | nil => intro k i p h; simp [enumFromL] at h
  | cons x l ih =>
    intro k i p h
    rw [enumFromL, List.mem_cons] at h
    rcases h with h | h
    · obtain ⟨h1, h2⟩ := Prod.mk.injEq .. ▸ h
      injection h with h1 h2
      subst h1
      subst h2
      simp
    · obtain ⟨hk, hget⟩ := ih (k + 1) i p h
      refine ⟨by omega, ?_⟩
      have hik : i - k = (i - (k + 1)) + 1 := by omega
      rw [hik]
      rw [List.getElem?_cons_succ]
      exact hget

theorem mem_flatMap_pairs (m1 m2 : Nat → LocAddr) {α : Type} (l : List α) :
    ∀ (k : Nat) (a : LocAddr),
      a ∈ (enumFromL k l).flatMap (fun ip => [m1 ip.1, m2 ip.1]) →
      ∃ i, k ≤ i ∧ (a = m1 i ∨ a = m2 i) := by
  induction l with
  | nil => intro k a h; simp [enumFromL] at h
  | cons x l ih =>
    intro k a h
    rw [enumFromL, List.flatMap_cons, List.mem_append] at h
    rcases h with h | h
    · simp only [List.mem_cons, List.mem_singleton] at h
      rcases h with rfl | h
      · exact ⟨k, le_refl k, Or.inl rfl⟩
      · rcases h with rfl | h
        · exact ⟨k, le_refl k, Or.inr rfl⟩
        · simp at h
    · obtain ⟨i, hk, hc⟩ := ih (k + 1) a h
      exact ⟨i, by omega, hc⟩

theorem nodup_flatMap_pairs (m1 m2 : Nat → LocAddr)
    (h11 : ∀ i j, m1 i = m1 j → i = j) (h22 : ∀ i j, m2 i = m2 j → i = j)
    (h12 : ∀ i j, m1 i ≠ m2 j) {α : Type} (l : List α) :
    ∀ k, ((enumFromL k l).flatMap (fun ip => [m1 ip.1, m2 ip.1])).Nodup := by
  induction l with
  | nil => intro k; simp [enumFromL]
  | cons x l ih =>
    intro k
    rw [enumFromL, List.flatMap_cons, List.nodup_append]
    refine ⟨?_, ih (k + 1), ?_⟩
    · simp only [List.nodup_cons, List.mem_singleton, List.nodup_singleton, and_true]
      exact ⟨h12 k k, by simp, by simp⟩
    · intro a ha hmem
      obtain ⟨i, hki, hcase⟩ := mem_flatMap_pairs m1 m2 l (k + 1) a hmem
      simp only [List.mem_cons, List.mem_singleton] at ha
      rcases ha with rfl | ha
      · rcases hcase with hE | hE
        · have := h11 k i hE
          omega
        · exact h12 k i hE
      · rcases ha with rfl | ha
        · rcases hcase with hE | hE
          · exact h12 i k hE.symm
          · have := h22 k i hE
            omega
        · simp at ha

theorem seg_main_eq (appId : String) (st : Student) :
    (match st.documents with
     | none => ([] : List DocTask)
     | some docs =>
       documentMapping.filterMap (fun dkck =>
         if truthy (dictGet docs dkck.1) then
           some ⟨appId, "main", dkck.1, dkck.2, (dictGet docs dkck.1).getD "", none⟩
         else none)) =
    ((documentMapping.map (fun p => LocAddr.mainL p.1 p.2)).filter
      (fun a => truthy (lookupLoc st a))).map (mkTask appId st) := by
  cases hdocs : st.documents with
  | none =>
    rw [List.filter_map]
    have hall : documentMapping.filter
        ((fun a => truthy (lookupLoc st a)) ∘ (fun p => LocAddr.mainL p.1 p.2)) = [] := by
      rw [List.filter_eq_nil_iff]
      intro p hp
      simp [Function.comp, lookupLoc, hdocs, truthy]
    rw [hall]
    rfl
  | some docs =>
    dsimp only
    rw [List.filter_map, filterMap_ite]
    have hpred : documentMapping.filter (fun dkck => truthy (dictGet docs dkck.1)) =
        documentMapping.filter
          ((fun a => truthy (lookupLoc st a)) ∘ (fun p => LocAddr.mainL p.1 p.2)) := by
      apply List.filter_congr
      intro p hp
      simp [Function.comp, lookupLoc, hdocs]
    rw [hpred]
    rw [List.map_map]
    apply List.map_congr_left
    intro p hp
    simp [Function.comp, mkTask, lookupLoc, hdocs]

theorem seg_gi_eq (appId : String) (st : Student) :
    (match st.personal_information with
     | none => ([] : List DocTask)
     | some pinfo =>
       if truthy (pinfo (some "government_id_document")) then
         [⟨appId, "nested", "personal_information.government_id_document",
           "government_id_content", (pinfo (some "government_id_document")).getD "",
           some "personal_information"⟩]
       else []) =
    (([LocAddr.giL].filter (fun a => truthy (lookupLoc st a))).map (mkTask appId st)) := by
  cases hpi : st.personal_information with
  | none =>
    have : truthy (lookupLoc st .giL) = false := by
      simp [lookupLoc, hpi, truthy]
    simp [List.filter_cons, this]
  | some pinfo =>
    dsimp only
    have hl : lookupLoc st .giL = pinfo (some "government_id_document") := by
      simp [lookupLoc, hpi]
    by_cases h : truthy (pinfo (some "government_id_document")) = true
    · simp [List.filter_cons, hl, h, mkTask]
    · rw [if_neg h]
      simp only [Bool.not_eq_true] at h
      simp [List.filter_cons, hl, h]

theorem seg_re_eq (appId : String) (st : Student) :
    (match st.research_experience with
     | none => ([] : List DocTask)
     | some re =>
       (enumFromL 0 (re.projects.getD [])).flatMap (fun ip =>
         (if truthy (ip.2 (some "publication_document")) then
           [⟨appId, "nested",
             "research_experience.projects[" ++ toString ip.1 ++ "].publication_document",
             "publication_content", (ip.2 (some "publication_document")).getD "",
             some ("research_experience.projects." ++ toString ip.1)⟩]
          else []) ++
         (if truthy (ip.2 (some "report_document")) then
           [⟨appId, "nested",
             "research_experience.projects[" ++ toString ip.1 ++ "].report_document",
             "report_content", (ip.2 (some "report_document")).getD "",
             some ("research_experience.projects." ++ toString ip.1)⟩]
          else []))) =
    (((enumFromL 0 (match st.research_experience with
        | none => ([] : List PMap)
        | some re => re.projects.getD [])).flatMap
          (fun ip => [LocAddr.pubL ip.1, LocAddr.repL ip.1])).filter
        (fun a => truthy (lookupLoc st a))).map (mkTask appId st) := by
  cases hre : st.research_experience with
  | none => simp [enumFromL]
  | some re =>
    dsimp only
    rw [List.filter_flatMap, List.map_flatMap]
    apply flatMap_congr_mem
    intro ip hip
    obtain ⟨i, p⟩ := ip
    obtain ⟨-, hget⟩ := enumFromL_mem_getElem (re.projects.getD []) 0 i p hip
    rw [Nat.sub_zero] at hget
    have hlp : lookupLoc st (.pubL i) = p (some "publication_document") := by
      simp [lookupLoc, projAt, hre, hget]
    have hlr : lookupLoc st (.repL i) = p (some "report_document") := by
      simp [lookupLoc, projAt, hre, hget]
    by_cases h1 : truthy (p (some "publication_document")) = true <;>
      by_cases h2 : truthy (p (some "report_document")) = true <;>
        simp [List.filter_cons, hlp, hlr, h1, h2, mkTask]

theorem seg_we_eq (appId : String) (st : Student) :
    (match st.work_experience with
     | none => ([] : List DocTask)
     | some wlist =>
       (enumFromL 0 wlist).flatMap (fun ip =>
         (if truthy (ip.2 (some "certificate_document")) then
           [⟨appId, "nested",
             "work_experience[" ++ toString ip.1 ++ "].certificate_document",
             "certificate_content", (ip.2 (some "certificate_document")).getD "",
             some ("work_experience." ++ toString ip.1)⟩]
          else []) ++
         (if truthy (ip.2 (some "recommendation_document")) then
           [⟨appId, "nested",
             "work_experience[" ++ toString ip.1 ++ "].recommendation_document",
             "recommendation_content", (ip.2 (some "recommendation_document")).getD "",
             some ("work_experience." ++ toString ip.1)⟩]
          else []))) =
    (((enumFromL 0 (st.work_experience.getD [])).flatMap
          (fun ip => [LocAddr.certL ip.1, LocAddr.recL ip.1])).filter
        (fun a => truthy (lookupLoc st a))).map (mkTask appId st) := by
  cases hwe : st.work_experience with
  | none => simp [enumFromL]
  | some wlist =>
    dsimp only
    rw [List.filter_flatMap, List.map_flatMap]
    simp only [Option.getD_some]
    apply flatMap_congr_mem
    intro ip hip
    obtain ⟨i, p⟩ := ip
    obtain ⟨-, hget⟩ := enumFromL_mem_getElem wlist 0 i p hip
    rw [Nat.sub_zero] at hget
    have hlp : lookupLoc st (.certL i) = p (some "certificate_document") := by
      simp [lookupLoc, weAt, hwe, hget]
    have hlr : lookupLoc st (.recL i) = p (some "recommendation_document") := by
      simp [lookupLoc, weAt, hwe, hget]
    by_cases h1 : truthy (p (some "certificate_document")) = true <;>
      by_cases h2 : truthy (p (some "recommendation_document")) = true <;>
        simp [List.filter_cons, hlp, hlr, h1, h2, mkTask]

/-- Claim C6: the resolver emits exactly the tasks of the present, non-empty
document locators — in scan order, one task per present slot — and zero
tasks for empty or absent locators: the task list is the image of the
present-slot list under the task builder, membership in the present-slot
list is exactly presence of a non-empty locator at an addressable slot, the
present-slot list has no duplicates, a record with no present locators
yields the empty task list, and a found record always yields success with
its task list (the empty list included). -/
theorem prepare_document_list_spec (appId : String) (st : Student) :
    prepare_document_list appId st = (presentLocs st).map (mkTask appId st) ∧
    (∀ a : LocAddr, a ∈ presentLocs st ↔ a ∈ allAddrs st ∧ truthy (lookupLoc st a) = true) ∧
    (presentLocs st).Nodup ∧
    ((∀ a ∈ allAddrs st, truthy (lookupLoc st a) = false) →
      prepare_document_list appId st = []) ∧
    prepare_document_list_flow appId (some st) =
      (true, prepare_document_list appId st, (prepare_document_list appId st).length) := by
  have hmain : prepare_document_list appId st = (presentLocs st).map (mkTask appId st) := by
    rw [prepare_document_list, presentLocs, allAddrs]
    rw [List.filter_append, List.filter_append, List.filter_append]
    rw [List.map_append, List.map_append, List.map_append]
    rw [seg_main_eq appId st, seg_gi_eq appId st, seg_re_eq appId st, seg_we_eq appId st]
  have hnodup_all : (allAddrs st).Nodup := by
    rw [allAddrs]
    rw [List.nodup_append]
    refine ⟨?_, ?_, ?_⟩
    · rw [List.nodup_append]
      refine ⟨?_, ?_, ?_⟩
      · rw [List.nodup_append]
        refine ⟨?_, ?_, ?_⟩
        · apply List.Nodup.map
          · intro p q hpq
            cases p; cases q
            have := LocAddr.mainL.inj hpq
            simpa [Prod.mk.injEq] using this
          · decide
        · simp
        · intro a ha hmem
          simp only [List.mem_singleton] at hmem
          subst hmem
          obtain ⟨p, hp, hmk⟩ := List.mem_map.mp ha
          simp at hmk
      · exact nodup_flatMap_pairs LocAddr.pubL LocAddr.repL
          (fun i j h => by simpa using h) (fun i j h => by simpa using h)
          (fun i j h => by simp at h) _ 0
      · intro a ha hmem
        obtain ⟨i, -, hcase⟩ := mem_flatMap_pairs _ _ _ 0 a hmem
        rw [List.mem_append] at ha
        rcases ha with ha | ha
        · obtain ⟨p, hp, hmk⟩ := List.mem_map.mp ha
          rcases hcase with rfl | rfl <;> simp at hmk
        · simp only [List.mem_singleton] at ha
          subst ha
          rcases hcase with h | h <;> simp at h
    · exact nodup_flatMap_pairs LocAddr.certL LocAddr.recL
        (fun i j h => by simpa using h) (fun i j h => by simpa using h)
        (fun i j h => by simp at h) _ 0
    · intro a ha hmem
      obtain ⟨i, -, hcase⟩ := mem_flatMap_pairs _ _ _ 0 a hmem
      rw [List.mem_append] at ha
      rcases ha with ha | ha
      · rw [List.mem_append] at ha
        rcases ha with ha | ha
        · obtain ⟨p, hp, hmk⟩ := List.mem_map.mp ha
          rcases hcase with rfl | rfl <;> simp at hmk
        · simp only [List.mem_singleton] at ha
          subst ha
          rcases hcase with h | h <;> simp at h
      · obtain ⟨j, -, hcase2⟩ := mem_flatMap_pairs _ _ _ 0 a ha
        rcases hcase with rfl | rfl <;> rcases hcase2 with h | h <;> simp at h
  refine ⟨hmain, ?_, ?_, ?_, rfl⟩
  · intro a
    rw [presentLocs]
    exact List.mem_filter
  · rw [presentLocs]
    exact List.Nodup.filter _ hnodup_all
  · intro h
    rw [hmain]
    have hnil : presentLocs st = [] := by
      rw [presentLocs, List.filter_eq_nil_iff]
      intro a ha
      rw [h a ha]
      simp
    rw [hnil]
    rfl

end DRAE
